import Mathlib

/-!
Verification of the BF optimizing executor (src/bf.rs, src/bfllvm.rs).

Shallow embedding conventions:
* `u8` cells are `Nat` values kept below 256 by explicit `% 256`.
* `usize` arithmetic is `Nat` with explicit wrapping modulo `2 ^ 64`
  (`wrapping_add` / `wrapping_sub` mirror Rust's methods).
* The tape is a `List Nat`; a Rust indexing panic (out-of-bounds access,
  or `usize` subtraction underflow followed by an out-of-bounds access)
  is modelled as `none` / `Except.error`.
* The interpreter's `run` loop is given explicit fuel; `none` covers both
  aborts and exhausted fuel, `some` is a normal return.
-/

namespace BF

/-- `BF_MEMORY_SIZE` from src/bf.rs. -/
def BF_MEMORY_SIZE : Nat := 3000

/-- Modulus of Rust `usize` arithmetic (64-bit host): `2 ^ 64`. -/
def USIZE : Nat := 18446744073709551616

/-- Rust `usize::wrapping_add`. -/
def wrapping_add (a b : Nat) : Nat := (a + b) % USIZE

/-- Rust `usize::wrapping_sub` (on arguments already reduced mod `USIZE`). -/
def wrapping_sub (a b : Nat) : Nat := (a + (USIZE - b % USIZE)) % USIZE

/-- The extended IR instruction set `BFInstr` from src/bf.rs. -/
inductive BFInstr where
  | IncPC (n : Nat)
  | DecPC (n : Nat)
  | IncVal (n : Nat)
  | DecVal (n : Nat)
  | Output (n : Nat)
  | Input (n : Nat)
  | LoopStart (t : Nat)
  | LoopEnd (t : Nat)
  | ZeroCurrentCell
  | AddCellValueRight (d : Nat)
  | AddCellValueLeft (d : Nat)
  | SubCellValueRight (d : Nat)
  | SubCellValueLeft (d : Nat)
  | FindZeroCellLeft (s : Nat)
  | FindZeroCellRight (s : Nat)
deriving DecidableEq, Repr

/-- `BFProgram::cell_add_imm`: `memory[cell] = (memory[cell] as usize).wrapping_add(amt) as u8`.
`none` models the indexing panic when `cell` is out of bounds. -/
def cell_add_imm (mem : List Nat) (cell : Nat) (amt : Nat) : Option (List Nat) :=
  match mem.get? cell with
  | none => none
  | some v => some (mem.set cell (wrapping_add v amt % 256))

/-- `BFProgram::cell_sub_imm`: `memory[cell] = (memory[cell] as usize).wrapping_sub(amt) as u8`. -/
def cell_sub_imm (mem : List Nat) (cell : Nat) (amt : Nat) : Option (List Nat) :=
  match mem.get? cell with
  | none => none
  | some v => some (mem.set cell (wrapping_sub v amt % 256))

/-- `BFProgram::cell_add_cell`: reads `memory[rhs_cell]`, then `cell_add_imm lhs`. -/
def cell_add_cell (mem : List Nat) (lhs_cell rhs_cell : Nat) : Option (List Nat) :=
  match mem.get? rhs_cell with
  | none => none
  | some r => cell_add_imm mem lhs_cell r

/-- `BFProgram::cell_sub_cell`. -/
def cell_sub_cell (mem : List Nat) (lhs_cell rhs_cell : Nat) : Option (List Nat) :=
  match mem.get? rhs_cell with
  | none => none
  | some r => cell_sub_imm mem lhs_cell r

/-- Interpreter state: tape, data pointer, program counter, plus the
input stream still to be read and the output bytes written so far. -/
structure BFState where
  memory : List Nat
  data_ptr : Nat
  pc : Nat
  inp : List Nat
  out : List Nat
deriving DecidableEq, Repr

/-- The `Input(times)` arm of `_step`: each of the `times` reads stores the
byte read into `memory[data_ptr]`; at EOF the read is a no-op (`Ok(0)`). -/
def inputRun (mem : List Nat) (dp : Nat) (inp : List Nat) : Nat → List Nat × List Nat
  | 0 => (mem, inp)
  | n + 1 =>
    match inp with
    | [] => inputRun mem dp [] n
    | b :: rest => inputRun (mem.set dp b) dp rest n

/-- The `while self.memory[self.data_ptr] != 0 { self.data_ptr -= step_size }`
loop of `FindZeroCellLeft`.  `none` models the out-of-bounds / underflow panic
and (for `s = 0` on a nonzero cell) divergence. -/
def findZeroLeft (mem : List Nat) (s : Nat) (dp : Nat) : Option Nat :=
  match h : mem.get? dp with
  | none => none
  | some v =>
    if v = 0 then some dp
    else if hs : s = 0 then none
    else if hle : s ≤ dp then findZeroLeft mem s (dp - s) else none
termination_by dp
decreasing_by
  have h1 : 1 ≤ s := Nat.one_le_iff_ne_zero.mpr hs
  omega

/-- The loop of `FindZeroCellRight`. -/
def findZeroRight (mem : List Nat) (s : Nat) (dp : Nat) : Option Nat :=
  match h : mem.get? dp with
  | none => none
  | some v =>
    if v = 0 then some dp
    else if hs : s = 0 then none
    else findZeroRight mem s (dp + s)
termination_by mem.length - dp
decreasing_by
  have hdp : dp < mem.length := List.get?_eq_some.mp h |>.1
  have h1 : 1 ≤ s := Nat.one_le_iff_ne_zero.mpr hs
  omega

/-- `BFProgram::_step`: one dispatch of the interpreter on `instructions[pc]`.
Does not perform the trailing `pc += 1` (done by the run loop). -/
def bfStep (instrs : List BFInstr) (s : BFState) : Option BFState :=
  match instrs.get? s.pc with
  | none => none
  | some i =>
    match i with
    | .IncPC inc => some { s with data_ptr := s.data_ptr + inc }
    | .DecPC dec => if dec ≤ s.data_ptr then some { s with data_ptr := s.data_ptr - dec } else none
    | .IncVal inc =>
      match cell_add_imm s.memory s.data_ptr inc with
      | none => none
      | some m => some { s with memory := m }
    | .DecVal dec =>
      match cell_sub_imm s.memory s.data_ptr dec with
      | none => none
      | some m => some { s with memory := m }
    | .Output times =>
      match s.memory.get? s.data_ptr with
      | none => none
      | some v => some { s with out := s.out ++ List.replicate times v }
    | .Input times =>
      if s.data_ptr < s.memory.length then
        some { s with memory := (inputRun s.memory s.data_ptr s.inp times).1,
                      inp := (inputRun s.memory s.data_ptr s.inp times).2 }
      else none
    | .LoopStart jump_to =>
      match s.memory.get? s.data_ptr with
      | none => none
      | some v => if v = 0 then some { s with pc := jump_to } else some s
    | .LoopEnd jump_to =>
      match s.memory.get? s.data_ptr with
      | none => none
      | some v => if v ≠ 0 then some { s with pc := jump_to } else some s
    | .ZeroCurrentCell =>
      if s.data_ptr < s.memory.length then
        some { s with memory := s.memory.set s.data_ptr 0 }
      else none
    | .AddCellValueRight dist =>
      match s.memory.get? s.data_ptr with
      | none => none
      | some v =>
        if v ≠ 0 then
          match cell_add_cell s.memory (s.data_ptr + dist) s.data_ptr with
          | none => none
          | some m => some { s with memory := m.set s.data_ptr 0 }
        else some s
    | .AddCellValueLeft dist =>
      match s.memory.get? s.data_ptr with
      | none => none
      | some v =>
        if v ≠ 0 then
          if dist ≤ s.data_ptr then
            match cell_add_cell s.memory (s.data_ptr - dist) s.data_ptr with
            | none => none
            | some m => some { s with memory := m.set s.data_ptr 0 }
          else none
        else some s
    | .SubCellValueRight dist =>
      match s.memory.get? s.data_ptr with
      | none => none
      | some v =>
        if v ≠ 0 then
          match cell_sub_cell s.memory (s.data_ptr + dist) s.data_ptr with
          | none => none
          | some m => some { s with memory := m.set s.data_ptr 0 }
        else some s
    | .SubCellValueLeft dist =>
      match s.memory.get? s.data_ptr with
      | none => none
      | some v =>
        if v ≠ 0 then
          if dist ≤ s.data_ptr then
            match cell_sub_cell s.memory (s.data_ptr - dist) s.data_ptr with
            | none => none
            | some m => some { s with memory := m.set s.data_ptr 0 }
          else none
        else some s
    | .FindZeroCellLeft step_size =>
      match findZeroLeft s.memory step_size s.data_ptr with
      | none => none
      | some dp => some { s with data_ptr := dp }
    | .FindZeroCellRight step_size =>
      match findZeroRight s.memory step_size s.data_ptr with
      | none => none
      | some dp => some { s with data_ptr := dp }

/-- `BFProgram::run`: `while pc < instructions.len() { _step(); pc += 1 }`,
with explicit fuel bounding the number of dispatches. -/
def runFuel (instrs : List BFInstr) : Nat → BFState → Option BFState
  | 0, s => if s.pc < instrs.length then none else some s
  | fuel + 1, s =>
    if s.pc < instrs.length then
      match bfStep instrs s with
      | none => none
      | some s1 => runFuel instrs fuel { s1 with pc := s1.pc + 1 }
    else some s

/-! ## The optimizing compiler (src/bf.rs) -/

/-- `BFProgram::optimize_zero`: rewrites a length-1 loop body `DecVal(1)`
or `ZeroCurrentCell` to `ZeroCurrentCell` (the latter catches nested
clear loops).  Returns the instructions pushed into the workspace (the
Rust function returns `bool` and pushes on success). -/
def optimize_zero (window : List BFInstr) : Option (List BFInstr) :=
  if window.length = 1 then
    match window.head? with
    | some (.DecVal n) => if n = 1 then some [.ZeroCurrentCell] else none
    | some .ZeroCurrentCell => some [.ZeroCurrentCell]
    | _ => none
  else none

/-- `BFProgram::optimize_move_data`: rewrites the four length-4 move-data
bodies (equal distances) to the corresponding single instruction. -/
def optimize_move_data (window : List BFInstr) : Option (List BFInstr) :=
  if window.length = 4 then
    match window.get? 0, window.get? 1, window.get? 2, window.get? 3 with
    | some (.DecVal a), some (.IncPC dist_a), some (.IncVal b), some (.DecPC dist_b) =>
      if a = 1 ∧ b = 1 ∧ dist_a = dist_b then some [.AddCellValueRight dist_a] else none
    | some (.DecVal a), some (.DecPC dist_a), some (.IncVal b), some (.IncPC dist_b) =>
      if a = 1 ∧ b = 1 ∧ dist_a = dist_b then some [.AddCellValueLeft dist_a] else none
    | some (.DecVal a), some (.IncPC dist_a), some (.DecVal b), some (.DecPC dist_b) =>
      if a = 1 ∧ b = 1 ∧ dist_a = dist_b then some [.SubCellValueRight dist_a] else none
    | some (.DecVal a), some (.DecPC dist_a), some (.DecVal b), some (.IncPC dist_b) =>
      if a = 1 ∧ b = 1 ∧ dist_a = dist_b then some [.SubCellValueLeft dist_a] else none
    | _, _, _, _ => none
  else none

/-- `BFProgram::optimize_find_zero`: rewrites a length-1 body `DecPC(s)` /
`IncPC(s)` to `FindZeroCellLeft(s)` / `FindZeroCellRight(s)`. -/
def optimize_find_zero (window : List BFInstr) : Option (List BFInstr) :=
  if window.length = 1 then
    match window.head? with
    | some (.DecPC step_size) => some [.FindZeroCellLeft step_size]
    | some (.IncPC step_size) => some [.FindZeroCellRight step_size]
    | _ => none
  else none

/-- The `OPTIMIZATIONS` array from src/bf.rs, in source order. -/
def OPTIMIZATIONS : List (List BFInstr → Option (List BFInstr)) :=
  [optimize_zero, optimize_move_data, optimize_find_zero]

/-- First-match-wins iteration over a rewriter list (the `for optim in
OPTIMIZATIONS.iter()` loop in `optimize_loop`). -/
def tryOptims : List (List BFInstr → Option (List BFInstr)) → List BFInstr → Option (List BFInstr)
  | [], _ => none
  | f :: rest, w =>
    match f w with
    | some ws => some ws
    | none => tryOptims rest w

/-- The rewriter applied to a loop body by the implementation. -/
def bfOptimize (window : List BFInstr) : Option (List BFInstr) :=
  tryOptims OPTIMIZATIONS window

/-- `BFProgram::optimize_loop`'s window extraction and rewriter search:
`window = instructions[(loop_start + 1)..(len - 1)]`. -/
def optimize_loop (instrs : List BFInstr) (loop_start : Nat) : Option (List BFInstr) :=
  bfOptimize ((instrs.take (instrs.length - 1)).drop (loop_start + 1))

/-- Compiler state: the fields of `BFProgram` touched by `compile`, together
with the local `loop_stack` (head = top of stack). -/
structure CompState where
  instructions : List BFInstr
  instr_count : Nat
  loop_count : Nat
  optimized_loop_count : Nat
  loop_stack : List Nat
deriving DecidableEq, Repr

/-- A fresh `BFProgram::new()` as seen by the compiler. -/
def initComp : CompState := ⟨[], 0, 0, 0, []⟩

/-- The fatal compile-time diagnostics (`panic!` in the source). -/
inductive BFError where
  | unmatchedClose (idx : Nat)
  | unmatchedOpen (idx : Nat)
  | doubleCompile
deriving DecidableEq, Repr

/-- One unit of the `b']'` arm of `push_instr`: pop the loop stack, back-patch
the `LoopStart`, append `LoopEnd`, then run the peephole pass. -/
def closeLoop (st : CompState) : Except BFError CompState :=
  match st.loop_stack with
  | [] => .error (.unmatchedClose st.instructions.length)
  | loop_start :: rest =>
    let loop_end := st.instructions.length
    let instrs1 := (st.instructions.set loop_start (.LoopStart loop_end)) ++ [.LoopEnd loop_start]
    let st1 : CompState :=
      { st with instructions := instrs1, instr_count := st.instr_count + 1,
                loop_count := st.loop_count + 1, loop_stack := rest }
    match optimize_loop instrs1 loop_start with
    | some ws =>
      .ok { st1 with instructions := instrs1.take loop_start ++ ws,
                     optimized_loop_count := st1.optimized_loop_count + 1 }
    | none => .ok st1

/-- `for _ in 0..arg` around `closeLoop`. -/
def closeLoops (st : CompState) : Nat → Except BFError CompState
  | 0 => .ok st
  | n + 1 =>
    match closeLoop st with
    | .error e => .error e
    | .ok st1 => closeLoops st1 n

/-- `for _ in 0..arg` of the `b'['` arm: push `instructions.len()` and append
a `LoopStart(0)` placeholder each time. -/
def openLoops (st : CompState) : Nat → CompState
  | 0 => st
  | n + 1 =>
    openLoops
      { st with loop_stack := st.instructions.length :: st.loop_stack,
                instructions := st.instructions ++ [.LoopStart 0],
                instr_count := st.instr_count + 1 } n

/-- `BFProgram::push_instr` for a fused token `(ch, arg)` (bytes are ASCII:
62 is the greater-than command, 60 less-than, 43 plus, 45 minus, 46 dot,
44 comma, 91 open bracket, 93 close bracket). -/
def push_instr (st : CompState) (ch : Nat) (arg : Nat) : Except BFError CompState :=
  if ch = 62 then
    .ok { st with instructions := st.instructions ++ [.IncPC arg], instr_count := st.instr_count + arg }
  else if ch = 60 then
    .ok { st with instructions := st.instructions ++ [.DecPC arg], instr_count := st.instr_count + arg }
  else if ch = 43 then
    .ok { st with instructions := st.instructions ++ [.IncVal arg], instr_count := st.instr_count + arg }
  else if ch = 45 then
    .ok { st with instructions := st.instructions ++ [.DecVal arg], instr_count := st.instr_count + arg }
  else if ch = 46 then
    .ok { st with instructions := st.instructions ++ [.Output arg], instr_count := st.instr_count + arg }
  else if ch = 44 then
    .ok { st with instructions := st.instructions ++ [.Input arg], instr_count := st.instr_count + arg }
  else if ch = 91 then .ok (openLoops st arg)
  else if ch = 93 then closeLoops st arg
  else .ok st

/-- `BFProgram::valid_bf_char`. -/
def valid_bf_char (ch : Nat) : Bool :=
  ch = 62 || ch = 60 || ch = 43 || ch = 45 || ch = 46 || ch = 44 || ch = 91 || ch = 93

/-- Lexer state threaded through `compile`: compiler state plus the pending
run `(last_char, last_char_count)`. -/
structure LexState where
  comp : CompState
  last_char : Nat
  last_char_count : Nat
deriving DecidableEq, Repr

/-- The per-byte body of `compile`'s scanning loop. -/
def procByte (ls : LexState) (ch : Nat) : Except BFError LexState :=
  if valid_bf_char ch then
    if ls.last_char_count > 0 then
      if ch ≠ ls.last_char then
        match push_instr ls.comp ls.last_char ls.last_char_count with
        | .error e => .error e
        | .ok st1 => .ok ⟨st1, ch, 1⟩
      else .ok ⟨ls.comp, ls.last_char, ls.last_char_count + 1⟩
    else .ok ⟨ls.comp, ch, 1⟩
  else .ok ls

/-- Scanning a sequence of bytes. -/
def procBytes : LexState → List Nat → Except BFError LexState
  | ls, [] => .ok ls
  | ls, ch :: rest =>
    match procByte ls ch with
    | .error e => .error e
    | .ok ls1 => procBytes ls1 rest

/-- At EOF: `if last_char_count > 0 { push_instr(last_char, last_char_count) }`. -/
def flushPending (ls : LexState) : Except BFError CompState :=
  if ls.last_char_count > 0 then push_instr ls.comp ls.last_char ls.last_char_count
  else .ok ls.comp

/-- The final `if let Some(unmatched_loop_start) = loop_stack.pop() { panic! }`:
the diagnostic names the index popped from the top of the stack. -/
def checkStack (st : CompState) : Except BFError CompState :=
  match st.loop_stack with
  | p :: _ => .error (.unmatchedOpen p)
  | [] => .ok st

/-- `BFProgram::compile` run against an existing program state (the loop
stack is a fresh local in the source, so it starts empty). -/
def compileFrom (st : CompState) (bytes : List Nat) : Except BFError CompState :=
  match procBytes ⟨{ st with loop_stack := [] }, 0, 0⟩ bytes with
  | .error e => .error e
  | .ok ls =>
    match flushPending ls with
    | .error e => .error e
    | .ok st1 => checkStack st1

/-- Compiling a byte sequence into a fresh `BFProgram`. -/
def compileBytes (bytes : List Nat) : Except BFError CompState :=
  compileFrom initComp bytes

/-- `compile` reading its source through successive `read` chunks: the fused
run state persists across chunk boundaries; an empty read means EOF and stops
the scanning loop. -/
def procChunks : LexState → List (List Nat) → Except BFError LexState
  | ls, [] => .ok ls
  | ls, c :: rest =>
    if c = [] then .ok ls
    else
      match procBytes ls c with
      | .error e => .error e
      | .ok ls1 => procChunks ls1 rest

/-- Compiling from a chunked reader. -/
def compileChunks (chunks : List (List Nat)) : Except BFError CompState :=
  match procChunks ⟨initComp, 0, 0⟩ chunks with
  | .error e => .error e
  | .ok ls =>
    match flushPending ls with
    | .error e => .error e
    | .ok st1 => checkStack st1

/-! ## The JIT front end (src/bfllvm.rs)

Only the control flow of `BFLLVMProgram::compile` and the runtime output
helper are relevant to the claims; the LLVM IR emission itself is opaque
foreign state and is omitted.  `pc` counts raw BF commands exactly as the
`self.pc += arg` updates do. -/

/-- The compile-time state of `BFLLVMProgram` relevant to its panics:
the raw command counter and the loop block stack (holding the
`loop_start_pc` component of each pushed triple; head = top). -/
structure LLVMComp where
  pc : Nat
  block_stack : List Nat
deriving DecidableEq, Repr

/-- `BFLLVMProgram::push_instr`, tracking `pc` and the block stack. -/
def llvm_push_instr (st : LLVMComp) (ch : Nat) (arg : Nat) : Except BFError LLVMComp :=
  if ch = 91 then
    .ok { st with block_stack := (List.range arg).reverse.map (st.pc + ·) ++ st.block_stack,
                  pc := st.pc + arg }
  else if ch = 93 then llvm_closeLoops st arg
  else if valid_bf_char ch then .ok { st with pc := st.pc + arg }
  else .ok st
where
  /-- `for _ in 0..arg` of the `b']'` arm: pop the block stack or panic
  naming `self.pc`; `pc += 1` after each unit. -/
  llvm_closeLoops (st : LLVMComp) : Nat → Except BFError LLVMComp
    | 0 => .ok st
    | n + 1 =>
      match st.block_stack with
      | [] => .error (.unmatchedClose st.pc)
      | _ :: rest => llvm_closeLoops { st with pc := st.pc + 1, block_stack := rest } n

/-- The byte-scanning state of `BFLLVMProgram::compile`. -/
structure LLVMLexState where
  comp : LLVMComp
  last_char : Nat
  last_char_count : Nat
deriving DecidableEq, Repr

/-- The per-byte body of `BFLLVMProgram::compile`'s scanning loop. -/
def llvm_procByte (ls : LLVMLexState) (ch : Nat) : Except BFError LLVMLexState :=
  if valid_bf_char ch then
    if ls.last_char_count > 0 then
      if ch ≠ ls.last_char then
        match llvm_push_instr ls.comp ls.last_char ls.last_char_count with
        | .error e => .error e
        | .ok st1 => .ok ⟨st1, ch, 1⟩
      else .ok ⟨ls.comp, ls.last_char, ls.last_char_count + 1⟩
    else .ok ⟨ls.comp, ch, 1⟩
  else .ok ls

/-- Scanning a byte sequence in the JIT compiler. -/
def llvm_procBytes : LLVMLexState → List Nat → Except BFError LLVMLexState
  | ls, [] => .ok ls
  | ls, ch :: rest =>
    match llvm_procByte ls ch with
    | .error e => .error e
    | .ok ls1 => llvm_procBytes ls1 rest

/-- `BFLLVMProgram::compile`: panics immediately if `self.compiled` is
already set, otherwise scans the source, flushes the pending run and
checks the block stack.  Returns the new `compiled` flag and state. -/
def llvm_compile (compiled : Bool) (bytes : List Nat) : Except BFError (Bool × LLVMComp) :=
  if compiled then .error .doubleCompile
  else
    match llvm_procBytes ⟨⟨0, []⟩, 0, 0⟩ bytes with
    | .error e => .error e
    | .ok ls =>
      match (if ls.last_char_count > 0 then llvm_push_instr ls.comp ls.last_char ls.last_char_count
             else .ok ls.comp) with
      | .error e => .error e
      | .ok st1 =>
        match st1.block_stack with
        | p :: _ => .error (.unmatchedOpen p)
        | [] => .ok (true, st1)

/-- `__bf_print_output` from src/bfllvm.rs: writes one byte to the stdout
handle; on a write error it panics (modelled as `Except.error`), otherwise
it returns the written byte. -/
def bf_print_output (write_ok : Bool) (ch : Nat) : Except String Nat :=
  if write_ok then .ok ch
  else .error "Error while outputting char"

/-! ## Basic lemmas -/

/-- Reduction of `wrapping_add` to arithmetic mod 256 (for `as u8` casts). -/
theorem wrapping_add_mod256 (a b : Nat) : wrapping_add a b % 256 = (a + b) % 256 := by
  unfold wrapping_add USIZE
  omega

/-- Reduction of `wrapping_sub` to arithmetic mod 256. -/
theorem wrapping_sub_mod256 (a b : Nat) : wrapping_sub a b % 256 = (a + (256 - b % 256)) % 256 := by
  unfold wrapping_sub USIZE
  omega

/-- Writing back the value already present leaves the list unchanged. -/
theorem set_get_same {α : Type} [DecidableEq α] (l : List α) (i : Nat) (a : α)
    (h : l.get? i = some a) : l.set i a = l := by
  induction l generalizing i with
  | nil => exact Option.noConfusion h
  | cons x xs ih =>
    cases i with
    | zero => rw [List.get?_cons_zero] at h; injection h with h; simp [h]
    | succ n =>
      rw [List.get?_cons_succ] at h
      simp only [List.set_cons_succ, List.cons.injEq, true_and]
      exact ih n h

/-- All loop-jump targets of an instruction vector are in bounds. -/
def targetsOKb (instrs : List BFInstr) : Bool :=
  instrs.all fun i =>
    match i with
    | .LoopStart t => t < instrs.length
    | .LoopEnd t => t < instrs.length
    | _ => true

/-- A single interpreter dispatch from an in-bounds `pc` lands on an
in-bounds `pc` whenever all jump targets are in bounds. -/
theorem bfStep_pc_lt (instrs : List BFInstr) (s s1 : BFState)
    (hb : targetsOKb instrs = true) (hpc : s.pc < instrs.length)
    (h : bfStep instrs s = some s1) : s1.pc < instrs.length := by
  unfold bfStep at h
  cases hget : instrs.get? s.pc with
  | none => rw [hget] at h; exact Option.noConfusion h
  | some i =>
    rw [hget] at h
    have hall := List.all_eq_true.mp hb i (List.get?_mem hget)
    cases i with
    | LoopStart t =>
      simp only [decide_eq_true_eq] at hall
      simp only at h
      repeat' split at h
      all_goals (try exact Option.noConfusion h)
      all_goals (injection h with h; subst h)
      · exact hall
      · exact hpc
    | LoopEnd t =>
      simp only [decide_eq_true_eq] at hall
      simp only at h
      repeat' split at h
      all_goals (try exact Option.noConfusion h)
      all_goals (injection h with h; subst h)
      · exact hall
      · exact hpc
    | _ =>
      simp only at h
      repeat' split at h
      all_goals (try exact Option.noConfusion h)
      all_goals (injection h with h; subst h)
      all_goals exact hpc

/-! ## Claim theorems -/

/-- The canonical rewriter order stated by the spec: FindZero, then
ClearCell, then MoveData. -/
def canonicalOptimize (window : List BFInstr) : Option (List BFInstr) :=
  match optimize_find_zero window with
  | some ws => some ws
  | none =>
    match optimize_zero window with
    | some ws => some ws
    | none => optimize_move_data window

/-- **C3**: the implementation's rewriter order (`optimize_zero`, then
`optimize_move_data`, then `optimize_find_zero`, first match wins) selects
the same outcome as the canonical spec order (FindZero, then ClearCell,
then MoveData), because the bodies accepted by the three rewriters are
pairwise disjoint: at most one rewriter matches any body. -/
theorem optimizer_order_irrelevant (w : List BFInstr) :
    bfOptimize w = canonicalOptimize w ∧
    (optimize_zero w ≠ none → optimize_find_zero w = none ∧ optimize_move_data w = none) ∧
    (optimize_find_zero w ≠ none → optimize_zero w = none ∧ optimize_move_data w = none) ∧
    (optimize_move_data w ≠ none → optimize_zero w = none ∧ optimize_find_zero w = none) := by
  rcases w with _ | ⟨a, _ | ⟨b, _ | ⟨c, _ | ⟨d, _ | e⟩⟩⟩⟩
  · simp [bfOptimize, tryOptims, OPTIMIZATIONS, canonicalOptimize,
      optimize_zero, optimize_move_data, optimize_find_zero]
  · cases a <;>
      [skip; skip; skip; (rename_i n; by_cases hn : n = 1 <;> subst_eqs <;> skip); skip;
       skip; skip; skip; skip; skip; skip; skip; skip; skip; skip] <;>
      simp_all [bfOptimize, tryOptims, OPTIMIZATIONS, canonicalOptimize,
        optimize_zero, optimize_move_data, optimize_find_zero]
  · simp [bfOptimize, tryOptims, OPTIMIZATIONS, canonicalOptimize,
      optimize_zero, optimize_move_data, optimize_find_zero]
  · simp [bfOptimize, tryOptims, OPTIMIZATIONS, canonicalOptimize,
      optimize_zero, optimize_move_data, optimize_find_zero]
  · have hz : optimize_zero [a, b, c, d] = none := by simp [optimize_zero]
    have hf : optimize_find_zero [a, b, c, d] = none := by simp [optimize_find_zero]
    refine ⟨?_, ?_, ?_, ?_⟩
    · simp only [bfOptimize, tryOptims, OPTIMIZATIONS, canonicalOptimize, hz, hf]
      cases optimize_move_data [a, b, c, d] <;> rfl
    · intro h; exact absurd hz h
    · intro h; exact absurd hf h
    · intro h; exact ⟨hz, hf⟩
  · simp [bfOptimize, tryOptims, OPTIMIZATIONS, canonicalOptimize,
      optimize_zero, optimize_move_data, optimize_find_zero, List.length_cons]

/-- Scanning a concatenation scans the parts in sequence. -/
lemma procBytes_append (ls : LexState) (a b : List Nat) :
    procBytes ls (a ++ b) =
      match procBytes ls a with
      | .error e => .error e
      | .ok ls1 => procBytes ls1 b := by
  induction a generalizing ls with
  | nil => rfl
  | cons x rest ih =>
    show procBytes ls (x :: (rest ++ b)) = _
    simp only [procBytes]
    cases procByte ls x with
    | error e => rfl
    | ok ls1 => exact ih ls1

/-- Chunked scanning of non-empty chunks equals scanning the concatenation. -/
lemma procChunks_eq (chunks : List (List Nat)) (h : ∀ c ∈ chunks, c ≠ []) :
    ∀ ls, procChunks ls chunks = procBytes ls chunks.flatten := by
  induction chunks with
  | nil => intro ls; rfl
  | cons c rest ih =>
    intro ls
    unfold procChunks
    rw [if_neg (h c (List.mem_cons_self c rest))]
    rw [List.flatten_cons, procBytes_append]
    cases hc : procBytes ls c with
    | error e => rfl
    | ok ls1 => exact ih (fun x hx => h x (List.mem_cons_of_mem c hx)) ls1

/-- **C4**: compilation is deterministic and independent of read chunking:
compiling through any partition of the source bytes into successive
non-empty read chunks yields the same result (instruction vector, counters
and stats) as compiling the bytes in one piece, and any two partitions of
the same byte sequence yield identical results; in particular compiling
the same source twice yields identical IR. -/
theorem compile_chunking_independent (chunks : List (List Nat))
    (h : ∀ c ∈ chunks, c ≠ []) :
    compileChunks chunks = compileBytes chunks.flatten ∧
    ∀ chunks2, (∀ c ∈ chunks2, c ≠ []) → chunks2.flatten = chunks.flatten →
      compileChunks chunks2 = compileChunks chunks := by
  have key : ∀ ch, (∀ c ∈ ch, c ≠ []) → compileChunks ch = compileBytes ch.flatten := by
    intro ch hch
    unfold compileChunks compileBytes compileFrom
    rw [procChunks_eq ch hch]
    rfl
  refine ⟨key chunks h, fun chunks2 h2 hjoin => ?_⟩
  rw [key chunks2 h2, key chunks h, hjoin]

/-- Witness for C4 at a concrete two-chunk partition of `+-`. -/
theorem compile_chunking_independent_witness :
    compileChunks [[43], [45]] = compileBytes ([[43], [45]] : List (List Nat)).flatten ∧
    ∀ chunks2, (∀ c ∈ chunks2, c ≠ []) → chunks2.flatten = ([[43], [45]] : List (List Nat)).flatten →
      compileChunks chunks2 = compileChunks [[43], [45]] :=
  compile_chunking_independent [[43], [45]] (by decide)

/-- **C10**: the interpreter's program counter is never reset.  When all
jump targets are in bounds and `run` returns normally, the final `pc`
equals the length of the instruction vector, so a second `run` on the
resulting state dispatches zero instructions and returns the state
(tape, data pointer, input and output) unchanged. -/
theorem run_leaves_pc_at_end (instrs : List BFInstr) (F : Nat) (s s' : BFState)
    (hb : targetsOKb instrs = true) (hpc : s.pc ≤ instrs.length)
    (h : runFuel instrs F s = some s') :
    s'.pc = instrs.length ∧ ∀ F2, runFuel instrs F2 s' = some s' := by
  induction F generalizing s with
  | zero =>
    unfold runFuel at h
    split at h
    · exact Option.noConfusion h
    · next hnlt =>
      injection h with h; subst h
      constructor
      · omega
      · intro F2
        cases F2 <;> (unfold runFuel) <;> simp [hnlt]
  | succ F ih =>
    unfold runFuel at h
    split at h
    · next hlt =>
      cases hstep : bfStep instrs s with
      | none => rw [hstep] at h; exact Option.noConfusion h
      | some s1 =>
        rw [hstep] at h
        have h1 : s1.pc < instrs.length := bfStep_pc_lt instrs s s1 hb hlt hstep
        exact ih _ (by simp; omega) h
    · next hnlt =>
      injection h with h; subst h
      constructor
      · omega
      · intro F2
        cases F2 <;> (unfold runFuel) <;> simp [hnlt]

/-- Witness for C10 at a concrete program and run. -/
theorem run_leaves_pc_at_end_witness :
    (⟨[2], 0, 1, [], []⟩ : BFState).pc = [BFInstr.IncVal 2].length ∧
    ∀ F2, runFuel [BFInstr.IncVal 2] F2 ⟨[2], 0, 1, [], []⟩ = some ⟨[2], 0, 1, [], []⟩ :=
  run_leaves_pc_at_end [BFInstr.IncVal 2] 2 ⟨[0], 0, 0, [], []⟩ ⟨[2], 0, 1, [], []⟩
    (by decide) (by decide) (by decide)

/-- **C8**: cell arithmetic is modulo 256 for every operand: `cell_add_imm`
stores `(v + n) % 256` and `cell_sub_imm` stores `(v - n) mod 256` (as an
integer remainder); in particular `255 + 1` wraps to `0` and `0 - 1` wraps
to `255`, with no trap (the result is always `some`). -/
theorem cell_arith_mod_256 (mem : List Nat) (cell v amt : Nat)
    (hv : mem.get? cell = some v) (hb : v < 256) :
    cell_add_imm mem cell amt = some (mem.set cell ((v + amt) % 256)) ∧
    cell_sub_imm mem cell amt = some (mem.set cell ((((v : Int) - (amt : Int)) % 256).toNat)) ∧
    (v = 255 → amt = 1 → (v + amt) % 256 = 0) ∧
    (v = 0 → amt = 1 → (((v : Int) - (amt : Int)) % 256).toNat = 255) := by
  refine ⟨?_, ?_, ?_, ?_⟩
  · simp only [cell_add_imm, hv, wrapping_add_mod256]
  · have harith : wrapping_sub v amt % 256 = (((v : Int) - (amt : Int)) % 256).toNat := by
      unfold wrapping_sub USIZE
      omega
    simp only [cell_sub_imm, hv, harith]
  · intro h1 h2; subst h1; subst h2; decide
  · intro h1 h2; subst h1; subst h2; decide

/-- Witness for C8 at cell value 255 and immediate 1. -/
theorem cell_arith_mod_256_witness :
    ([255] : List Nat).get? 0 = some 255 ∧
    (cell_add_imm [255] 0 1 = some (([255] : List Nat).set 0 ((255 + 1) % 256)) ∧
     cell_sub_imm [255] 0 1 =
       some (([255] : List Nat).set 0 ((((255 : Nat) : Int) - ((1 : Nat) : Int)) % 256).toNat) ∧
     ((255 : Nat) = 255 → (1 : Nat) = 1 → (255 + 1) % 256 = 0) ∧
     ((255 : Nat) = 0 → (1 : Nat) = 1 → ((((255 : Nat) : Int) - ((1 : Nat) : Int)) % 256).toNat = 255)) :=
  ⟨by decide, cell_arith_mod_256 [255] 0 255 1 (by decide) (by decide)⟩

/-- Symbolic execution of the compiled clear-cell program on a fresh tape. -/
lemma c9_run (n : Nat) (hn : 0 < n) :
    runFuel [BFInstr.IncVal 5, BFInstr.ZeroCurrentCell] 5 ⟨List.replicate n 0, 0, 0, [], []⟩ =
    some ⟨((List.replicate n 0).set 0 5).set 0 0, 0, 2, [], []⟩ := by
  have hw : wrapping_add 0 5 % 256 = 5 := by decide
  have e1 : cell_add_imm (List.replicate n 0) 0 5 = some ((List.replicate n 0).set 0 5) := by
    simp [cell_add_imm, List.get?_eq_getElem?, List.getElem?_replicate, hn, hw]
  have hlen : ((List.replicate n (0:Nat)).set 0 5).length = n := by simp
  unfold runFuel
  simp only [List.length_cons, List.length_nil]
  rw [if_pos (by omega)]
  rw [show bfStep [BFInstr.IncVal 5, BFInstr.ZeroCurrentCell] ⟨List.replicate n 0, 0, 0, [], []⟩ =
      some ⟨(List.replicate n 0).set 0 5, 0, 0, [], []⟩ by simp [bfStep, e1]]
  unfold runFuel
  simp only [List.length_cons, List.length_nil]
  rw [if_pos (by omega)]
  rw [show bfStep [BFInstr.IncVal 5, BFInstr.ZeroCurrentCell] ⟨(List.replicate n 0).set 0 5, 0, 1, [], []⟩ =
      some ⟨((List.replicate n 0).set 0 5).set 0 0, 0, 1, [], []⟩ by simp [bfStep, hlen, hn]]
  unfold runFuel
  simp only [List.length_cons, List.length_nil]
  rw [if_neg (by omega)]

/-- **C9**: compiling `+++++[-]` (bytes `43,43,43,43,43,91,45,93`) yields
`[IncVal 5, ZeroCurrentCell]` with `optimized_loop_count = 1` (the loop is
replaced by a `ZeroCurrentCell`), and running it on a fresh tape with empty
input produces empty output and leaves `tape[0] = 0`. -/
theorem clear_cell_end_to_end :
    compileBytes [43, 43, 43, 43, 43, 91, 45, 93] =
      .ok ⟨[.IncVal 5, .ZeroCurrentCell], 8, 1, 1, []⟩ ∧
    BFInstr.ZeroCurrentCell ∈ ([.IncVal 5, .ZeroCurrentCell] : List BFInstr) ∧
    ∃ s', runFuel [.IncVal 5, .ZeroCurrentCell] 5
        ⟨List.replicate BF_MEMORY_SIZE 0, 0, 0, [], []⟩ = some s' ∧
      s'.out = [] ∧ s'.memory.get? 0 = some 0 := by
  have hn : 0 < BF_MEMORY_SIZE := by norm_num [BF_MEMORY_SIZE]
  refine ⟨rfl, by decide, ⟨_, c9_run BF_MEMORY_SIZE hn, rfl, ?_⟩⟩
  show ((((List.replicate BF_MEMORY_SIZE 0).set 0 5).set 0 0 : List Nat)).get? 0 = some 0
  have h1 : (0:Nat) < ((List.replicate BF_MEMORY_SIZE (0:Nat)).set 0 5).length := by simpa using hn
  simp [List.get?_eq_getElem?, List.getElem?_set, List.getElem?_replicate, h1, hn]

/-- The `Output(times)` loop of `_step` with fallible writes: `oracle`
gives the outcome of each `stdout.write` attempt (`true` = success,
exhausted oracle = success).  On a failed write the byte is dropped, a
diagnostic is counted, and the loop continues. -/
def writeRun (v : Nat) : Nat → List Bool → List Nat → Nat → List Nat × Nat × List Bool
  | 0, oracle, out, diag => (out, diag, oracle)
  | n + 1, oracle, out, diag =>
    if oracle.headD true then writeRun v n oracle.tail (out ++ [v]) diag
    else writeRun v n oracle.tail out (diag + 1)

/-- `_step` with fallible stdout writes: identical to `bfStep` except that
the `Output` arm threads the write-outcome oracle and the diagnostic
counter through `writeRun`. -/
def bfStepW (instrs : List BFInstr) (s : BFState) (oracle : List Bool) (diag : Nat) :
    Option (BFState × Nat × List Bool) :=
  match instrs.get? s.pc with
  | none => none
  | some (.Output times) =>
    match s.memory.get? s.data_ptr with
    | none => none
    | some v =>
      let r := writeRun v times oracle s.out diag
      some ({ s with out := r.1 }, r.2.1, r.2.2)
  | some _ =>
    match bfStep instrs s with
    | none => none
    | some s1 => some (s1, diag, oracle)

/-- Every write attempt either appends the byte or counts a diagnostic. -/
lemma writeRun_count (v : Nat) : ∀ (n : Nat) (oracle : List Bool) (out : List Nat) (diag : Nat),
    (writeRun v n oracle out diag).1.length + (writeRun v n oracle out diag).2.1 =
      out.length + diag + n := by
  intro n
  induction n with
  | zero => intro oracle out diag; rfl
  | succ m ih =>
    intro oracle out diag
    unfold writeRun
    by_cases hok : oracle.headD true = true
    · rw [if_pos hok]
      have h2 := ih oracle.tail (out ++ [v]) diag
      simp only [List.length_append, List.length_cons, List.length_nil] at h2
      omega
    · rw [if_neg hok]
      have h2 := ih oracle.tail out (diag + 1)
      omega

/-- With every write succeeding, all bytes are emitted and none diagnosed. -/
lemma writeRun_all_true (v : Nat) : ∀ (n : Nat) (out : List Nat) (diag : Nat),
    writeRun v n (List.replicate n true) out diag = (out ++ List.replicate n v, diag, []) := by
  intro n
  induction n with
  | zero => intro out diag; simp [writeRun]
  | succ m ih =>
    intro out diag
    rw [List.replicate_succ]
    unfold writeRun
    simp only [List.headD_cons, if_pos rfl, List.tail_cons]
    rw [ih (out ++ [v]) diag]
    simp [List.replicate_succ]

/-- Counterexample to **C7** as stated: a byte-write failure is *not*
non-fatal in both engines.  In the JIT runtime helper `__bf_print_output`
a write error panics (aborts), rather than dropping the byte and
continuing. -/
theorem write_error_fatal_in_jit_counterexample :
    bf_print_output false 65 = .error "Error while outputting char" := rfl

/-- **C7 (amended)**: in the *interpreter*, a failed stdout write is
non-fatal: the byte is dropped, a diagnostic is counted (the source prints
it with `println!`, i.e. to standard output, not the error stream), and
execution continues with tape, DP and PC exactly as if the write had
succeeded.  In the *JIT*, `__bf_print_output` panics on a write error. -/
theorem write_error_nonfatal_in_interpreter
    (instrs : List BFInstr) (s : BFState) (times v diag : Nat) (oracle : List Bool)
    (hi : instrs.get? s.pc = some (.Output times))
    (hv : s.memory.get? s.data_ptr = some v) :
    (∃ out1 diag1 oracle1,
        bfStepW instrs s oracle diag = some ({ s with out := out1 }, diag1, oracle1) ∧
        out1.length + diag1 = s.out.length + diag + times) ∧
    bfStepW instrs s (List.replicate times true) diag =
      some ({ s with out := s.out ++ List.replicate times v }, diag, []) ∧
    bfStep instrs s = some { s with out := s.out ++ List.replicate times v } ∧
    (∀ ch, bf_print_output true ch = .ok ch) ∧
    (∀ ch, bf_print_output false ch = .error "Error while outputting char") := by
  refine ⟨⟨(writeRun v times oracle s.out diag).1, (writeRun v times oracle s.out diag).2.1,
    (writeRun v times oracle s.out diag).2.2, ?_, writeRun_count v times oracle s.out diag⟩,
    ?_, ?_, fun ch => rfl, fun ch => rfl⟩
  · have hi2 : instrs[s.pc]? = some (.Output times) := by simpa [List.get?_eq_getElem?] using hi
    have hv2 : s.memory[s.data_ptr]? = some v := by simpa [List.get?_eq_getElem?] using hv
    simp [bfStepW, hi2, hv2]
  · have hi2 : instrs[s.pc]? = some (.Output times) := by simpa [List.get?_eq_getElem?] using hi
    have hv2 : s.memory[s.data_ptr]? = some v := by simpa [List.get?_eq_getElem?] using hv
    simp [bfStepW, hi2, hv2, writeRun_all_true]
  · have hi2 : instrs[s.pc]? = some (.Output times) := by simpa [List.get?_eq_getElem?] using hi
    have hv2 : s.memory[s.data_ptr]? = some v := by simpa [List.get?_eq_getElem?] using hv
    simp [bfStep, hi2, hv2]

/-- Witness for C7 (amended) at a concrete output instruction with one
successful and one failed write. -/
theorem write_error_nonfatal_in_interpreter_witness :
    ([BFInstr.Output 2].get? 0 = some (.Output 2) ∧
     ([7] : List Nat).get? 0 = some 7) ∧
    ((∃ out1 diag1 oracle1,
        bfStepW [BFInstr.Output 2] ⟨[7], 0, 0, [], []⟩ [true, false] 0 =
          some ({ (⟨[7], 0, 0, [], []⟩ : BFState) with out := out1 }, diag1, oracle1) ∧
        out1.length + diag1 = (⟨[7], 0, 0, [], []⟩ : BFState).out.length + 0 + 2) ∧
     bfStepW [BFInstr.Output 2] ⟨[7], 0, 0, [], []⟩ (List.replicate 2 true) 0 =
       some ({ (⟨[7], 0, 0, [], []⟩ : BFState) with out := (⟨[7], 0, 0, [], []⟩ : BFState).out ++ List.replicate 2 7 }, 0, []) ∧
     bfStep [BFInstr.Output 2] ⟨[7], 0, 0, [], []⟩ =
       some { (⟨[7], 0, 0, [], []⟩ : BFState) with out := (⟨[7], 0, 0, [], []⟩ : BFState).out ++ List.replicate 2 7 } ∧
     (∀ ch, bf_print_output true ch = .ok ch) ∧
     (∀ ch, bf_print_output false ch = .error "Error while outputting char")) :=
  ⟨⟨rfl, rfl⟩, write_error_nonfatal_in_interpreter [BFInstr.Output 2] ⟨[7], 0, 0, [], []⟩ 2 7 0
    [true, false] rfl rfl⟩

/-- Counterexample to **C5** as stated: a second `compile()` on the
*interpreter* `BFProgram` does not abort.  After compiling `+` the program
holds `[IncVal 1]`; compiling `+` again returns `ok` and appends, yielding
`[IncVal 1, IncVal 1]` — no diagnostic, no abort. -/
theorem second_compile_no_abort_counterexample :
    compileBytes [43] = .ok ⟨[.IncVal 1], 1, 0, 0, []⟩ ∧
    compileFrom ⟨[.IncVal 1], 1, 0, 0, []⟩ [43] = .ok ⟨[.IncVal 1, .IncVal 1], 2, 0, 0, []⟩ :=
  ⟨rfl, rfl⟩

/-- **C5 (amended)**: only the JIT `BFLLVMProgram` guards against double
compilation — with its `compiled` flag set, `compile` panics immediately
for every input.  The interpreter `BFProgram` has no such check: a second
`compile()` proceeds normally and appends to the existing instruction
vector. -/
theorem double_compile_aborts_only_in_jit :
    (∀ bytes, llvm_compile true bytes = .error .doubleCompile) ∧
    compileBytes [43] = .ok ⟨[.IncVal 1], 1, 0, 0, []⟩ ∧
    compileFrom ⟨[.IncVal 1], 1, 0, 0, []⟩ [43] = .ok ⟨[.IncVal 1, .IncVal 1], 2, 0, 0, []⟩ :=
  ⟨fun _ => rfl, rfl, rfl⟩

/-! ## Bracket invariant (C2, C6) -/

/-- Instructions that are not loop brackets (the peephole rewrites only
produce such instructions). -/
def notLoop (i : BFInstr) : Prop :=
  match i with
  | .LoopStart _ => False
  | .LoopEnd _ => False
  | _ => True

/-- The compiler's bracket invariant, maintained between `push_instr`
calls: stack entries (top first) are strictly decreasing placeholder
positions; every closed `LoopStart`/`LoopEnd` pair is mutually linked and
never encloses an open placeholder. -/
structure CompInv (instrs : List BFInstr) (stack : List Nat) : Prop where
  sorted : stack.Pairwise (· > ·)
  openOk : ∀ p ∈ stack, instrs.get? p = some (.LoopStart 0)
  startOk : ∀ i t, i ∉ stack → instrs.get? i = some (.LoopStart t) →
    instrs.get? t = some (.LoopEnd i) ∧ i < t ∧ ∀ p ∈ stack, p < i ∨ t < p
  endOk : ∀ j q, instrs.get? j = some (.LoopEnd q) →
    instrs.get? q = some (.LoopStart j) ∧ q < j ∧ q ∉ stack ∧ ∀ p ∈ stack, p < q ∨ j < p

lemma inv_init : CompInv [] [] := by
  refine ⟨List.Pairwise.nil, ?_, ?_, ?_⟩
  · intro p hp; exact absurd hp (List.not_mem_nil p)
  · intro i t _ hget; rw [List.get?_nil] at hget; exact Option.noConfusion hget
  · intro j q hget; rw [List.get?_nil] at hget; exact Option.noConfusion hget

/-- Appending non-bracket instructions preserves the invariant. -/
lemma inv_append_all (instrs : List BFInstr) (stack : List Nat) (ws : List BFInstr)
    (h : CompInv instrs stack) (hws : ∀ x ∈ ws, notLoop x) :
    CompInv (instrs ++ ws) stack := by
  have key : ∀ k, (instrs ++ ws).get? k = instrs.get? k ∨
      ∃ x, (instrs ++ ws).get? k = some x ∧ notLoop x := by
    intro k
    by_cases hk : k < instrs.length
    · left; exact List.get?_append hk
    · cases hx : (instrs ++ ws).get? k with
      | none =>
        left
        cases hn : instrs.get? k with
        | none => rfl
        | some a => exact absurd (List.get?_eq_some.mp hn).1 hk
      | some x =>
        right
        refine ⟨x, rfl, ?_⟩
        have hlen : k < instrs.length + ws.length := by
          have := (List.get?_eq_some.mp hx).1
          simpa using this
        have : x ∈ ws := by
          have hg : ws.get? (k - instrs.length) = some x := by
            rw [List.get?_append_right (by omega)] at hx
            exact hx
          exact List.get?_mem hg
        exact hws x this
  have keep : ∀ k a, instrs.get? k = some a → (instrs ++ ws).get? k = some a := by
    intro k a hk
    rw [List.get?_append (List.get?_eq_some.mp hk).1]
    exact hk
  refine ⟨h.sorted, ?_, ?_, ?_⟩
  · intro p hp
    exact keep p _ (h.openOk p hp)
  · intro i t hi hget
    rcases key i with hk | ⟨x, hx, hnl⟩
    · rw [hk] at hget
      obtain ⟨h1, h2, h3⟩ := h.startOk i t hi hget
      exact ⟨keep t _ h1, h2, h3⟩
    · rw [hx] at hget
      injection hget with hget
      subst hget
      exact absurd hnl (by simp [notLoop])
  · intro j q hget
    rcases key j with hk | ⟨x, hx, hnl⟩
    · rw [hk] at hget
      obtain ⟨h1, h2, h3, h4⟩ := h.endOk j q hget
      exact ⟨keep q _ h1, h2, h3, h4⟩
    · rw [hx] at hget
      injection hget with hget
      subst hget
      exact absurd hnl (by simp [notLoop])
/-- Pushing a `LoopStart(0)` placeholder and its stack entry preserves the
invariant. -/
lemma inv_open (instrs : List BFInstr) (stack : List Nat) (h : CompInv instrs stack) :
    CompInv (instrs ++ [.LoopStart 0]) (instrs.length :: stack) := by
  have hlen : ∀ p ∈ stack, p < instrs.length :=
    fun p hp => (List.get?_eq_some.mp (h.openOk p hp)).1
  have keep : ∀ k (a : BFInstr), instrs.get? k = some a →
      (instrs ++ [BFInstr.LoopStart 0]).get? k = some a := by
    intro k a hk
    rw [List.get?_append (List.get?_eq_some.mp hk).1]
    exact hk
  have hnew : (instrs ++ [BFInstr.LoopStart 0]).get? instrs.length = some (.LoopStart 0) := by
    simp [List.get?_append_right]
  refine ⟨?_, ?_, ?_, ?_⟩
  · exact List.pairwise_cons.mpr ⟨fun q hq => hlen q hq, h.sorted⟩
  · intro p hp
    rcases List.mem_cons.mp hp with rfl | hp2
    · exact hnew
    · exact keep p _ (h.openOk p hp2)
  · intro i t hi hget
    have hne : i ≠ instrs.length := fun he => hi (he ▸ List.mem_cons_self _ _)
    have hi2 : i ∉ stack := fun hm => hi (List.mem_cons_of_mem _ hm)
    have hgi : instrs.get? i = some (.LoopStart t) := by
      have hilt : i < instrs.length + 1 := by
        have := (List.get?_eq_some.mp hget).1
        simpa using this
      have hil : i < instrs.length := by omega
      rw [List.get?_append hil] at hget
      exact hget
    obtain ⟨h1, h2, h3⟩ := h.startOk i t hi2 hgi
    refine ⟨keep t _ h1, h2, ?_⟩
    intro p hp
    rcases List.mem_cons.mp hp with rfl | hp2
    · exact Or.inr (List.get?_eq_some.mp h1).1
    · exact h3 p hp2
  · intro j q hget
    have hj : j < instrs.length := by
      rcases Nat.lt_or_ge j instrs.length with hlt | hge
      · exact hlt
      · have hjlt : j < instrs.length + 1 := by
          have := (List.get?_eq_some.mp hget).1
          simpa using this
        have hje : j = instrs.length := by omega
        subst hje
        rw [hnew] at hget
        exact absurd hget (by simp)
    rw [List.get?_append hj] at hget
    obtain ⟨h1, h2, h3, h4⟩ := h.endOk j q hget
    refine ⟨keep q _ h1, h2, ?_, ?_⟩
    · intro hm
      rcases List.mem_cons.mp hm with rfl | hm2
      · exact absurd (List.get?_eq_some.mp h1).1 (lt_irrefl _)
      · exact h3 hm2
    · intro p hp
      rcases List.mem_cons.mp hp with rfl | hp2
      · exact Or.inr hj
      · exact h4 p hp2
/-- Closing a loop without optimization: back-patching the placeholder at
the top of the stack and appending the matching `LoopEnd` preserves the
invariant with the entry popped. -/
lemma inv_close_core (instrs : List BFInstr) (p : Nat) (rest : List Nat)
    (h : CompInv instrs (p :: rest)) :
    CompInv ((instrs.set p (.LoopStart instrs.length)) ++ [.LoopEnd p]) rest := by
  set e := instrs.length with he
  set L := (instrs.set p (.LoopStart e)) ++ [.LoopEnd p] with hL
  have hpph : instrs.get? p = some (.LoopStart 0) := h.openOk p (List.mem_cons_self _ _)
  have hpe : p < e := (List.get?_eq_some.mp hpph).1
  have hrest : ∀ q ∈ rest, q < p := (List.pairwise_cons.mp h.sorted).1
  have hpnr : p ∉ rest := fun hm => absurd (hrest p hm) (lt_irrefl p)
  have hsetlen : (instrs.set p (BFInstr.LoopStart e)).length = e := by simp [he]
  have getL : ∀ k, k < e → k ≠ p → L.get? k = instrs.get? k := by
    intro k hk hkp
    rw [hL, List.get?_append (by rw [hsetlen]; exact hk)]
    exact List.get?_set_ne _ _ (fun hh => hkp hh.symm)
  have getp : L.get? p = some (.LoopStart e) := by
    rw [hL, List.get?_append (by rw [hsetlen]; exact hpe)]
    exact List.get?_set_eq_of_lt _ hpe
  have gete : L.get? e = some (.LoopEnd p) := by
    rw [hL, List.get?_append_right (by rw [hsetlen])]
    rw [hsetlen]
    simp
  have hlenL : L.length = e + 1 := by simp [hL, he]
  refine ⟨(List.pairwise_cons.mp h.sorted).2, ?_, ?_, ?_⟩
  · intro q hq
    rw [getL q (lt_trans (hrest q hq) hpe) (fun hqp => hpnr (hqp ▸ hq))]
    exact h.openOk q (List.mem_cons_of_mem _ hq)
  · intro i t hi hget
    have hie : i < e + 1 := by
      have := (List.get?_eq_some.mp hget).1
      rw [hlenL] at this
      exact this
    by_cases hieq : i = e
    · subst hieq
      rw [gete] at hget
      exact absurd hget (by simp)
    have hilt : i < e := by omega
    by_cases hip : i = p
    · subst hip
      rw [getp] at hget
      injection hget with hget
      injection hget with hget
      subst hget
      refine ⟨gete, hpe, ?_⟩
      intro q hq
      exact Or.inl (hrest q hq)
    · rw [getL i hilt hip] at hget
      have hi2 : i ∉ p :: rest := by
        intro hm
        rcases List.mem_cons.mp hm with h1 | h1
        · exact hip h1
        · exact hi h1
      obtain ⟨h1, h2, h3⟩ := h.startOk i t hi2 hget
      have hte : t < e := (List.get?_eq_some.mp h1).1
      have htp : t ≠ p := by
        intro hh
        rw [hh, hpph] at h1
        exact absurd h1 (by simp)
      refine ⟨by rw [getL t hte htp]; exact h1, h2, ?_⟩
      intro q hq
      exact h3 q (List.mem_cons_of_mem _ hq)
  · intro j q hget
    have hje : j < e + 1 := by
      have := (List.get?_eq_some.mp hget).1
      rw [hlenL] at this
      exact this
    by_cases hjeq : j = e
    · subst hjeq
      rw [gete] at hget
      injection hget with hget
      injection hget with hget
      subst hget
      refine ⟨getp, hpe, hpnr, ?_⟩
      intro q2 hq2
      exact Or.inl (hrest q2 hq2)
    have hjlt : j < e := by omega
    have hjp : j ≠ p := by
      intro hh
      rw [hh, getp] at hget
      exact absurd hget (by simp)
    rw [getL j hjlt hjp] at hget
    obtain ⟨h1, h2, h3, h4⟩ := h.endOk j q hget
    have hqp : q ≠ p := fun hh => h3 (hh ▸ List.mem_cons_self _ _)
    have hqe : q < e := (List.get?_eq_some.mp h1).1
    refine ⟨by rw [getL q hqe hqp]; exact h1, h2,
      fun hm => h3 (List.mem_cons_of_mem _ hm), ?_⟩
    intro q2 hq2
    exact h4 q2 (List.mem_cons_of_mem _ hq2)
/-- Truncating at the top placeholder keeps the invariant for the rest. -/
lemma inv_take (instrs : List BFInstr) (p : Nat) (rest : List Nat)
    (h : CompInv instrs (p :: rest)) :
    CompInv (instrs.take p) rest := by
  have hpph : instrs.get? p = some (.LoopStart 0) := h.openOk p (List.mem_cons_self _ _)
  have hpe : p < instrs.length := (List.get?_eq_some.mp hpph).1
  have hrest : ∀ q ∈ rest, q < p := (List.pairwise_cons.mp h.sorted).1
  have hTlen : (instrs.take p).length = p := by simp; omega
  have getT : ∀ k, k < p → (instrs.take p).get? k = instrs.get? k :=
    fun k hk => List.get?_take hk
  have inT : ∀ k (a : BFInstr), (instrs.take p).get? k = some a → k < p := by
    intro k a hk
    have := (List.get?_eq_some.mp hk).1
    rw [hTlen] at this
    exact this
  refine ⟨(List.pairwise_cons.mp h.sorted).2, ?_, ?_, ?_⟩
  · intro q hq
    rw [getT q (hrest q hq)]
    exact h.openOk q (List.mem_cons_of_mem _ hq)
  · intro i t hi hget
    have hip : i < p := inT i _ hget
    rw [getT i hip] at hget
    have hi2 : i ∉ p :: rest := by
      intro hm
      rcases List.mem_cons.mp hm with h1 | h1
      · omega
      · exact hi h1
    obtain ⟨h1, h2, h3⟩ := h.startOk i t hi2 hget
    have htp : t < p := by
      rcases h3 p (List.mem_cons_self _ _) with h4 | h4
      · omega
      · exact h4
    refine ⟨by rw [getT t htp]; exact h1, h2, ?_⟩
    intro q hq
    exact h3 q (List.mem_cons_of_mem _ hq)
  · intro j q hget
    have hjp : j < p := inT j _ hget
    rw [getT j hjp] at hget
    obtain ⟨h1, h2, h3, h4⟩ := h.endOk j q hget
    have hqp : q < p := by omega
    refine ⟨by rw [getT q hqp]; exact h1, h2,
      fun hm => h3 (List.mem_cons_of_mem _ hm), ?_⟩
    intro q2 hq2
    exact h4 q2 (List.mem_cons_of_mem _ hq2)

lemma optimize_zero_shape (w ws : List BFInstr) (h : optimize_zero w = some ws) :
    ws = [.ZeroCurrentCell] := by
  unfold optimize_zero at h
  repeat' split at h
  all_goals first
    | exact Option.noConfusion h
    | (injection h with h; exact h.symm)

lemma optimize_move_shape (w ws : List BFInstr) (h : optimize_move_data w = some ws) :
    ∃ d, ws = [.AddCellValueRight d] ∨ ws = [.AddCellValueLeft d] ∨
      ws = [.SubCellValueRight d] ∨ ws = [.SubCellValueLeft d] := by
  unfold optimize_move_data at h
  repeat' split at h
  all_goals first
    | exact Option.noConfusion h
    | (injection h with h; subst h)
  · exact ⟨_, Or.inl rfl⟩
  · exact ⟨_, Or.inr (Or.inl rfl)⟩
  · exact ⟨_, Or.inr (Or.inr (Or.inl rfl))⟩
  · exact ⟨_, Or.inr (Or.inr (Or.inr rfl))⟩

lemma optimize_find_shape (w ws : List BFInstr) (h : optimize_find_zero w = some ws) :
    ∃ d, ws = [.FindZeroCellLeft d] ∨ ws = [.FindZeroCellRight d] := by
  unfold optimize_find_zero at h
  repeat' split at h
  all_goals first
    | exact Option.noConfusion h
    | (injection h with h; subst h)
  · exact ⟨_, Or.inl rfl⟩
  · exact ⟨_, Or.inr rfl⟩

/-- Unfolding of the first-match-wins rewriter chain. -/
lemma bfOptimize_eq (w : List BFInstr) :
    bfOptimize w =
      match optimize_zero w with
      | some ws => some ws
      | none =>
        match optimize_move_data w with
        | some ws => some ws
        | none => optimize_find_zero w := by
  cases hz : optimize_zero w with
  | some ws => simp [bfOptimize, tryOptims, OPTIMIZATIONS, hz]
  | none =>
    cases hm : optimize_move_data w with
    | some ws => simp [bfOptimize, tryOptims, OPTIMIZATIONS, hz, hm]
    | none =>
      cases hf : optimize_find_zero w with
      | some ws => simp [bfOptimize, tryOptims, OPTIMIZATIONS, hz, hm, hf]
      | none => simp [bfOptimize, tryOptims, OPTIMIZATIONS, hz, hm, hf]

/-- Every rewrite emitted by the peephole pass is bracket-free. -/
lemma bfOptimize_notLoop (w ws : List BFInstr) (h : bfOptimize w = some ws) :
    ∀ x ∈ ws, notLoop x := by
  rw [bfOptimize_eq] at h
  cases hz : optimize_zero w with
  | some ws2 =>
    rw [hz] at h
    injection h with h
    subst h
    rw [optimize_zero_shape w ws2 hz]
    intro x hx
    rcases List.mem_singleton.mp hx with rfl
    trivial
  | none =>
    rw [hz] at h
    cases hm : optimize_move_data w with
    | some ws2 =>
      rw [hm] at h
      injection h with h
      subst h
      obtain ⟨d, hd⟩ := optimize_move_shape w ws2 hm
      intro x hx
      rcases hd with h1 | h1 | h1 | h1 <;> rw [h1] at hx <;>
        rcases List.mem_singleton.mp hx with rfl <;> trivial
    | none =>
      rw [hm] at h
      obtain ⟨d, hd⟩ := optimize_find_shape w ws h
      intro x hx
      rcases hd with h1 | h1 <;> rw [h1] at hx <;>
        rcases List.mem_singleton.mp hx with rfl <;> trivial
/-- Truncation to `p` ignores the back-patch at `p` and the appended
bracket. -/
lemma take_patch (instrs : List BFInstr) (p : Nat) (a b : BFInstr) (hp : p ≤ instrs.length) :
    ((instrs.set p a) ++ [b]).take p = instrs.take p := by
  rw [List.take_append_of_le_length (by simp [hp])]
  apply List.ext_get?
  intro k
  by_cases hk : k < p
  · rw [List.get?_take hk, List.get?_take hk, List.get?_set_ne _ _ (by omega)]
  · have h1 : ((instrs.set p a).take p).length ≤ k := by
      simp
      omega
    have h2 : (instrs.take p).length ≤ k := by
      simp
      omega
    rw [List.get?_eq_none.mpr h1, List.get?_eq_none.mpr h2]

/-- `closeLoop` preserves the invariant. -/
lemma closeLoop_inv (st st1 : CompState) (h : closeLoop st = .ok st1)
    (hinv : CompInv st.instructions st.loop_stack) :
    CompInv st1.instructions st1.loop_stack := by
  unfold closeLoop at h
  cases hs : st.loop_stack with
  | nil => rw [hs] at h; exact Except.noConfusion h
  | cons p rest =>
    rw [hs] at h
    rw [hs] at hinv
    dsimp only at h
    have hp : p < st.instructions.length :=
      (List.get?_eq_some.mp (hinv.openOk p (List.mem_cons_self _ _))).1
    have hcore : CompInv
        ((st.instructions.set p (.LoopStart st.instructions.length)) ++ [.LoopEnd p]) rest :=
      inv_close_core _ p rest hinv
    cases hopt : optimize_loop
        ((st.instructions.set p (.LoopStart st.instructions.length)) ++ [.LoopEnd p]) p with
    | some ws =>
      rw [hopt] at h
      injection h with h
      subst h
      dsimp only
      rw [take_patch st.instructions p _ _ (le_of_lt hp)]
      have hws : ∀ x ∈ ws, notLoop x := by
        apply bfOptimize_notLoop _ ws
        unfold optimize_loop at hopt
        exact hopt
      exact inv_append_all _ _ ws (inv_take _ p rest hinv) hws
    | none =>
      rw [hopt] at h
      injection h with h
      subst h
      exact hcore
lemma closeLoops_inv (arg : Nat) : ∀ (st st1 : CompState), closeLoops st arg = .ok st1 →
    CompInv st.instructions st.loop_stack → CompInv st1.instructions st1.loop_stack := by
  induction arg with
  | zero =>
    intro st st1 h hinv
    injection h with h
    subst h
    exact hinv
  | succ n ih =>
    intro st st1 h hinv
    unfold closeLoops at h
    cases hc : closeLoop st with
    | error e => rw [hc] at h; exact Except.noConfusion h
    | ok st2 =>
      rw [hc] at h
      exact ih st2 st1 h (closeLoop_inv st st2 hc hinv)

lemma openLoops_inv (arg : Nat) : ∀ (st : CompState),
    CompInv st.instructions st.loop_stack →
    CompInv (openLoops st arg).instructions (openLoops st arg).loop_stack := by
  induction arg with
  | zero => intro st hinv; exact hinv
  | succ n ih =>
    intro st hinv
    unfold openLoops
    exact ih _ (inv_open st.instructions st.loop_stack hinv)

lemma push_instr_inv (st : CompState) (ch arg : Nat) (st1 : CompState)
    (h : push_instr st ch arg = .ok st1)
    (hinv : CompInv st.instructions st.loop_stack) :
    CompInv st1.instructions st1.loop_stack := by
  unfold push_instr at h
  split at h
  · injection h with h; subst h
    exact inv_append_all _ _ _ hinv (by intro x hx; rcases List.mem_singleton.mp hx with rfl; trivial)
  · split at h
    · injection h with h; subst h
      exact inv_append_all _ _ _ hinv (by intro x hx; rcases List.mem_singleton.mp hx with rfl; trivial)
    · split at h
      · injection h with h; subst h
        exact inv_append_all _ _ _ hinv (by intro x hx; rcases List.mem_singleton.mp hx with rfl; trivial)
      · split at h
        · injection h with h; subst h
          exact inv_append_all _ _ _ hinv (by intro x hx; rcases List.mem_singleton.mp hx with rfl; trivial)
        · split at h
          · injection h with h; subst h
            exact inv_append_all _ _ _ hinv (by intro x hx; rcases List.mem_singleton.mp hx with rfl; trivial)
          · split at h
            · injection h with h; subst h
              exact inv_append_all _ _ _ hinv (by intro x hx; rcases List.mem_singleton.mp hx with rfl; trivial)
            · split at h
              · injection h with h; subst h
                exact openLoops_inv arg st hinv
              · split at h
                · exact closeLoops_inv arg st st1 h hinv
                · injection h with h; subst h
                  exact hinv

lemma procByte_inv (ls ls1 : LexState) (ch : Nat) (h : procByte ls ch = .ok ls1)
    (hinv : CompInv ls.comp.instructions ls.comp.loop_stack) :
    CompInv ls1.comp.instructions ls1.comp.loop_stack := by
  unfold procByte at h
  split at h
  · split at h
    · split at h
      · cases hp : push_instr ls.comp ls.last_char ls.last_char_count with
        | error e => rw [hp] at h; exact Except.noConfusion h
        | ok st2 =>
          rw [hp] at h
          injection h with h
          subst h
          exact push_instr_inv _ _ _ _ hp hinv
      · injection h with h; subst h; exact hinv
    · injection h with h; subst h; exact hinv
  · injection h with h; subst h; exact hinv

lemma procBytes_inv (bytes : List Nat) : ∀ (ls ls1 : LexState),
    procBytes ls bytes = .ok ls1 →
    CompInv ls.comp.instructions ls.comp.loop_stack →
    CompInv ls1.comp.instructions ls1.comp.loop_stack := by
  induction bytes with
  | nil =>
    intro ls ls1 h hinv
    injection h with h
    subst h
    exact hinv
  | cons ch rest ih =>
    intro ls ls1 h hinv
    unfold procBytes at h
    cases hp : procByte ls ch with
    | error e => rw [hp] at h; exact Except.noConfusion h
    | ok ls2 =>
      rw [hp] at h
      exact ih ls2 ls1 h (procByte_inv ls ls2 ch hp hinv)

lemma flushPending_inv (ls : LexState) (st1 : CompState) (h : flushPending ls = .ok st1)
    (hinv : CompInv ls.comp.instructions ls.comp.loop_stack) :
    CompInv st1.instructions st1.loop_stack := by
  unfold flushPending at h
  split at h
  · exact push_instr_inv _ _ _ _ h hinv
  · injection h with h; subst h; exact hinv

/-- The invariant holds for the state checked at the end of `compile`. -/
lemma compile_pre_inv (bytes : List Nat) (ls : LexState) (st1 : CompState)
    (h1 : procBytes ⟨initComp, 0, 0⟩ bytes = .ok ls)
    (h2 : flushPending ls = .ok st1) :
    CompInv st1.instructions st1.loop_stack :=
  flushPending_inv ls st1 h2 (procBytes_inv bytes _ ls h1 inv_init)
/-- **C2**: after any `compile()` that returns without aborting, the
instruction vector is bracket-consistent: every `LoopStart(t)` is matched
by `LoopEnd` at `t` pointing back, and vice versa — even though peephole
rewrites may have truncated and replaced earlier closed loops. -/
theorem bracket_consistency (bytes : List Nat) (st : CompState)
    (h : compileBytes bytes = .ok st) :
    (∀ i t, st.instructions.get? i = some (.LoopStart t) →
       st.instructions.get? t = some (.LoopEnd i)) ∧
    (∀ j q, st.instructions.get? j = some (.LoopEnd q) →
       st.instructions.get? q = some (.LoopStart j)) := by
  have e : compileBytes bytes =
      (match procBytes ⟨initComp, 0, 0⟩ bytes with
       | .error e => .error e
       | .ok ls =>
         match flushPending ls with
         | .error e => .error e
         | .ok st1 => checkStack st1) := rfl
  rw [e] at h
  cases h1 : procBytes ⟨initComp, 0, 0⟩ bytes with
  | error e2 => rw [h1] at h; exact Except.noConfusion h
  | ok ls =>
    rw [h1] at h
    have hB : (match flushPending ls with
        | Except.error e => (Except.error e : Except BFError CompState)
        | Except.ok st1 => checkStack st1) = Except.ok st := h
    cases h2 : flushPending ls with
    | error e2 => rw [h2] at hB; exact Except.noConfusion hB
    | ok st1 =>
      rw [h2] at hB
      have hinv := compile_pre_inv bytes ls st1 h1 h2
      have hC : checkStack st1 = Except.ok st := hB
      unfold checkStack at hC
      cases hs : st1.loop_stack with
      | cons p r => rw [hs] at hC; exact Except.noConfusion hC
      | nil =>
        rw [hs] at hC
        injection hC with hC
        subst hC
        rw [hs] at hinv
        constructor
        · intro i t hget
          exact (hinv.startOk i t (List.not_mem_nil i) hget).1
        · intro j q hget
          exact (hinv.endOk j q hget).1

/-- Witness for C2 on the compiled form of `+[+]`, whose loop survives
unoptimized. -/
theorem bracket_consistency_witness :
    (∀ i t, ([.IncVal 1, .LoopStart 3, .IncVal 1, .LoopEnd 1] : List BFInstr).get? i =
        some (.LoopStart t) →
      ([.IncVal 1, .LoopStart 3, .IncVal 1, .LoopEnd 1] : List BFInstr).get? t =
        some (.LoopEnd i)) ∧
    (∀ j q, ([.IncVal 1, .LoopStart 3, .IncVal 1, .LoopEnd 1] : List BFInstr).get? j =
        some (.LoopEnd q) →
      ([.IncVal 1, .LoopStart 3, .IncVal 1, .LoopEnd 1] : List BFInstr).get? q =
        some (.LoopStart j)) :=
  bracket_consistency [43, 91, 43, 93]
    ⟨[.IncVal 1, .LoopStart 3, .IncVal 1, .LoopEnd 1], 4, 1, 0, []⟩ rfl

/-- Counterexample to **C6** as stated: for source `[[` both open brackets
(IR indices 0 and 1) are unmatched at EOF; the first (earliest-pushed) one
is at index 0, but the diagnostic names the index popped from the *top* of
the stack, namely 1. -/
theorem unmatched_open_diagnostic_counterexample :
    compileBytes [91, 91] = .error (.unmatchedOpen 1) ∧ (1 : Nat) ≠ 0 :=
  ⟨rfl, by decide⟩

/-- **C6 (amended)**: for every source whose bracket sequence leaves at
least one `[` unclosed at EOF, `compile()` aborts with a diagnostic naming
the IR index of the *last-pushed* (innermost, largest-index) unmatched open
bracket — the top of the remaining loop stack, which is an unpatched
`LoopStart(0)` placeholder. -/
theorem unmatched_open_names_innermost (bytes : List Nat) (ls : LexState) (st1 : CompState)
    (p : Nat) (rest : List Nat)
    (h1 : procBytes ⟨initComp, 0, 0⟩ bytes = .ok ls)
    (h2 : flushPending ls = .ok st1)
    (h3 : st1.loop_stack = p :: rest) :
    compileBytes bytes = .error (.unmatchedOpen p) ∧
    st1.instructions.get? p = some (.LoopStart 0) ∧
    (∀ q ∈ st1.loop_stack, q ≤ p) := by
  have hinv := compile_pre_inv bytes ls st1 h1 h2
  refine ⟨?_, ?_, ?_⟩
  · have e : compileBytes bytes =
        (match procBytes ⟨initComp, 0, 0⟩ bytes with
         | .error e => .error e
         | .ok ls =>
           match flushPending ls with
           | .error e => .error e
           | .ok st1 => checkStack st1) := rfl
    have e2 : compileBytes bytes = checkStack st1 := by
      rw [e, h1]
      show (match flushPending ls with
        | Except.error e => (Except.error e : Except BFError CompState)
        | Except.ok st1 => checkStack st1) = checkStack st1
      rw [h2]
    rw [e2]
    unfold checkStack
    rw [h3]
  · exact hinv.openOk p (h3 ▸ List.mem_cons_self _ _)
  · intro q hq
    rw [h3] at hq
    rcases List.mem_cons.mp hq with rfl | hq2
    · exact le_refl q
    · have hlt := (List.pairwise_cons.mp (h3 ▸ hinv.sorted)).1 q hq2
      omega

/-- Witness for C6 (amended) at source `[[`. -/
theorem unmatched_open_names_innermost_witness :
    compileBytes [91, 91] = .error (.unmatchedOpen 1) ∧
    (⟨[.LoopStart 0, .LoopStart 0], 2, 0, 0, [1, 0]⟩ : CompState).instructions.get? 1 =
      some (.LoopStart 0) ∧
    (∀ q ∈ (⟨[.LoopStart 0, .LoopStart 0], 2, 0, 0, [1, 0]⟩ : CompState).loop_stack, q ≤ 1) :=
  unmatched_open_names_innermost [91, 91] ⟨initComp, 91, 2⟩
    ⟨[.LoopStart 0, .LoopStart 0], 2, 0, 0, [1, 0]⟩ 1 [0] rfl rfl rfl

lemma runFuel_succ (instrs : List BFInstr) (F : Nat) (s : BFState) (hpc : s.pc < instrs.length) :
    runFuel instrs (F + 1) s =
      match bfStep instrs s with
      | none => none
      | some s1 => runFuel instrs F { s1 with pc := s1.pc + 1 } := by
  conv_lhs => unfold runFuel
  rw [if_pos hpc]

lemma runFuel_zero_lt (instrs : List BFInstr) (s : BFState) (hpc : s.pc < instrs.length) :
    runFuel instrs 0 s = none := by
  unfold runFuel
  rw [if_pos hpc]

lemma runFuel_done (instrs : List BFInstr) (F : Nat) (s : BFState)
    (hpc : ¬ s.pc < instrs.length) : runFuel instrs F s = some s := by
  cases F <;> (unfold runFuel; rw [if_neg hpc])

lemma bfStep_DecVal_eq (instrs : List BFInstr) (s : BFState) (n : Nat) (m : List Nat)
    (hi : instrs.get? s.pc = some (.DecVal n)) (hm : cell_sub_imm s.memory s.data_ptr n = some m) :
    bfStep instrs s = some { s with memory := m } := by
  unfold bfStep
  rw [hi]
  show (match cell_sub_imm s.memory s.data_ptr n with
    | none => (none : Option BFState)
    | some m => some { s with memory := m }) = some { s with memory := m }
  rw [hm]

lemma bfStep_IncVal_eq (instrs : List BFInstr) (s : BFState) (n : Nat) (m : List Nat)
    (hi : instrs.get? s.pc = some (.IncVal n)) (hm : cell_add_imm s.memory s.data_ptr n = some m) :
    bfStep instrs s = some { s with memory := m } := by
  unfold bfStep
  rw [hi]
  show (match cell_add_imm s.memory s.data_ptr n with
    | none => (none : Option BFState)
    | some m => some { s with memory := m }) = some { s with memory := m }
  rw [hm]

lemma bfStep_IncPC_eq (instrs : List BFInstr) (s : BFState) (n : Nat)
    (hi : instrs.get? s.pc = some (.IncPC n)) :
    bfStep instrs s = some { s with data_ptr := s.data_ptr + n } := by
  unfold bfStep
  rw [hi]

lemma bfStep_DecPC_eq (instrs : List BFInstr) (s : BFState) (n : Nat)
    (hi : instrs.get? s.pc = some (.DecPC n)) (hle : n ≤ s.data_ptr) :
    bfStep instrs s = some { s with data_ptr := s.data_ptr - n } := by
  unfold bfStep
  rw [hi]
  show (if n ≤ s.data_ptr then some { s with data_ptr := s.data_ptr - n } else none) =
    some { s with data_ptr := s.data_ptr - n }
  rw [if_pos hle]

lemma bfStep_LoopStart_zero (instrs : List BFInstr) (s : BFState) (t : Nat)
    (hi : instrs.get? s.pc = some (.LoopStart t))
    (hv : s.memory.get? s.data_ptr = some 0) :
    bfStep instrs s = some { s with pc := t } := by
  unfold bfStep
  rw [hi]
  show (match s.memory.get? s.data_ptr with
    | none => (none : Option BFState)
    | some v => if v = 0 then some { s with pc := t } else some s) = some { s with pc := t }
  rw [hv]
  rfl

lemma bfStep_LoopStart_pos (instrs : List BFInstr) (s : BFState) (t v : Nat)
    (hi : instrs.get? s.pc = some (.LoopStart t))
    (hv : s.memory.get? s.data_ptr = some v) (hnz : v ≠ 0) :
    bfStep instrs s = some s := by
  unfold bfStep
  rw [hi]
  show (match s.memory.get? s.data_ptr with
    | none => (none : Option BFState)
    | some v => if v = 0 then some { s with pc := t } else some s) = some s
  rw [hv]
  show (if v = 0 then some { s with pc := t } else some s) = some s
  rw [if_neg hnz]

lemma bfStep_LoopEnd_zero (instrs : List BFInstr) (s : BFState) (t : Nat)
    (hi : instrs.get? s.pc = some (.LoopEnd t))
    (hv : s.memory.get? s.data_ptr = some 0) :
    bfStep instrs s = some s := by
  unfold bfStep
  rw [hi]
  show (match s.memory.get? s.data_ptr with
    | none => (none : Option BFState)
    | some v => if v ≠ 0 then some { s with pc := t } else some s) = some s
  rw [hv]
  show (if (0 : Nat) ≠ 0 then some { s with pc := t } else some s) = some s
  rw [if_neg (by simp)]

lemma bfStep_LoopEnd_pos (instrs : List BFInstr) (s : BFState) (t v : Nat)
    (hi : instrs.get? s.pc = some (.LoopEnd t))
    (hv : s.memory.get? s.data_ptr = some v) (hnz : v ≠ 0) :
    bfStep instrs s = some { s with pc := t } := by
  unfold bfStep
  rw [hi]
  show (match s.memory.get? s.data_ptr with
    | none => (none : Option BFState)
    | some v => if v ≠ 0 then some { s with pc := t } else some s) = some { s with pc := t }
  rw [hv]
  show (if v ≠ 0 then some { s with pc := t } else some s) = some { s with pc := t }
  rw [if_pos hnz]

lemma bfStep_Zero_eq (instrs : List BFInstr) (s : BFState)
    (hi : instrs.get? s.pc = some .ZeroCurrentCell)
    (hdp : s.data_ptr < s.memory.length) :
    bfStep instrs s = some { s with memory := s.memory.set s.data_ptr 0 } := by
  unfold bfStep
  rw [hi]
  show (if s.data_ptr < s.memory.length then some { s with memory := s.memory.set s.data_ptr 0 }
      else none) = some { s with memory := s.memory.set s.data_ptr 0 }
  rw [if_pos hdp]
lemma bfStep_AddRight_pos (instrs : List BFInstr) (s : BFState) (d v : Nat) (m : List Nat)
    (hi : instrs.get? s.pc = some (.AddCellValueRight d))
    (hv : s.memory.get? s.data_ptr = some v) (hnz : v ≠ 0)
    (hm : cell_add_cell s.memory (s.data_ptr + d) s.data_ptr = some m) :
    bfStep instrs s = some { s with memory := m.set s.data_ptr 0 } := by
  unfold bfStep
  rw [hi]
  show (match s.memory.get? s.data_ptr with
    | none => (none : Option BFState)
    | some v =>
      if v ≠ 0 then
        match cell_add_cell s.memory (s.data_ptr + d) s.data_ptr with
        | none => none
        | some m => some { s with memory := m.set s.data_ptr 0 }
      else some s) = some { s with memory := m.set s.data_ptr 0 }
  rw [hv]
  show (if v ≠ 0 then
      match cell_add_cell s.memory (s.data_ptr + d) s.data_ptr with
      | none => (none : Option BFState)
      | some m => some { s with memory := m.set s.data_ptr 0 }
    else some s) = some { s with memory := m.set s.data_ptr 0 }
  rw [if_pos hnz, hm]

lemma bfStep_AddRight_zero (instrs : List BFInstr) (s : BFState) (d : Nat)
    (hi : instrs.get? s.pc = some (.AddCellValueRight d))
    (hv : s.memory.get? s.data_ptr = some 0) :
    bfStep instrs s = some s := by
  unfold bfStep
  rw [hi]
  show (match s.memory.get? s.data_ptr with
    | none => (none : Option BFState)
    | some v =>
      if v ≠ 0 then
        match cell_add_cell s.memory (s.data_ptr + d) s.data_ptr with
        | none => none
        | some m => some { s with memory := m.set s.data_ptr 0 }
      else some s) = some s
  rw [hv]
  rfl

lemma bfStep_AddLeft_pos (instrs : List BFInstr) (s : BFState) (d v : Nat) (m : List Nat)
    (hi : instrs.get? s.pc = some (.AddCellValueLeft d))
    (hv : s.memory.get? s.data_ptr = some v) (hnz : v ≠ 0) (hle : d ≤ s.data_ptr)
    (hm : cell_add_cell s.memory (s.data_ptr - d) s.data_ptr = some m) :
    bfStep instrs s = some { s with memory := m.set s.data_ptr 0 } := by
  unfold bfStep
  rw [hi]
  show (match s.memory.get? s.data_ptr with
    | none => (none : Option BFState)
    | some v =>
      if v ≠ 0 then
        if d ≤ s.data_ptr then
          match cell_add_cell s.memory (s.data_ptr - d) s.data_ptr with
          | none => none
          | some m => some { s with memory := m.set s.data_ptr 0 }
        else none
      else some s) = some { s with memory := m.set s.data_ptr 0 }
  rw [hv]
  show (if v ≠ 0 then
      if d ≤ s.data_ptr then
        match cell_add_cell s.memory (s.data_ptr - d) s.data_ptr with
        | none => (none : Option BFState)
        | some m => some { s with memory := m.set s.data_ptr 0 }
      else none
    else some s) = some { s with memory := m.set s.data_ptr 0 }
  rw [if_pos hnz, if_pos hle, hm]

lemma bfStep_AddLeft_zero (instrs : List BFInstr) (s : BFState) (d : Nat)
    (hi : instrs.get? s.pc = some (.AddCellValueLeft d))
    (hv : s.memory.get? s.data_ptr = some 0) :
    bfStep instrs s = some s := by
  unfold bfStep
  rw [hi]
  show (match s.memory.get? s.data_ptr with
    | none => (none : Option BFState)
    | some v =>
      if v ≠ 0 then
        if d ≤ s.data_ptr then
          match cell_add_cell s.memory (s.data_ptr - d) s.data_ptr with
          | none => none
          | some m => some { s with memory := m.set s.data_ptr 0 }
        else none
      else some s) = some s
  rw [hv]
  rfl

lemma bfStep_SubRight_pos (instrs : List BFInstr) (s : BFState) (d v : Nat) (m : List Nat)
    (hi : instrs.get? s.pc = some (.SubCellValueRight d))
    (hv : s.memory.get? s.data_ptr = some v) (hnz : v ≠ 0)
    (hm : cell_sub_cell s.memory (s.data_ptr + d) s.data_ptr = some m) :
    bfStep instrs s = some { s with memory := m.set s.data_ptr 0 } := by
  unfold bfStep
  rw [hi]
  show (match s.memory.get? s.data_ptr with
    | none => (none : Option BFState)
    | some v =>
      if v ≠ 0 then
        match cell_sub_cell s.memory (s.data_ptr + d) s.data_ptr with
        | none => none
        | some m => some { s with memory := m.set s.data_ptr 0 }
      else some s) = some { s with memory := m.set s.data_ptr 0 }
  rw [hv]
  show (if v ≠ 0 then
      match cell_sub_cell s.memory (s.data_ptr + d) s.data_ptr with
      | none => (none : Option BFState)
      | some m => some { s with memory := m.set s.data_ptr 0 }
    else some s) = some { s with memory := m.set s.data_ptr 0 }
  rw [if_pos hnz, hm]

lemma bfStep_SubRight_zero (instrs : List BFInstr) (s : BFState) (d : Nat)
    (hi : instrs.get? s.pc = some (.SubCellValueRight d))
    (hv : s.memory.get? s.data_ptr = some 0) :
    bfStep instrs s = some s := by
  unfold bfStep
  rw [hi]
  show (match s.memory.get? s.data_ptr with
    | none => (none : Option BFState)
    | some v =>
      if v ≠ 0 then
        match cell_sub_cell s.memory (s.data_ptr + d) s.data_ptr with
        | none => none
        | some m => some { s with memory := m.set s.data_ptr 0 }
      else some s) = some s
  rw [hv]
  rfl

lemma bfStep_SubLeft_pos (instrs : List BFInstr) (s : BFState) (d v : Nat) (m : List Nat)
    (hi : instrs.get? s.pc = some (.SubCellValueLeft d))
    (hv : s.memory.get? s.data_ptr = some v) (hnz : v ≠ 0) (hle : d ≤ s.data_ptr)
    (hm : cell_sub_cell s.memory (s.data_ptr - d) s.data_ptr = some m) :
    bfStep instrs s = some { s with memory := m.set s.data_ptr 0 } := by
  unfold bfStep
  rw [hi]
  show (match s.memory.get? s.data_ptr with
    | none => (none : Option BFState)
    | some v =>
      if v ≠ 0 then
        if d ≤ s.data_ptr then
          match cell_sub_cell s.memory (s.data_ptr - d) s.data_ptr with
          | none => none
          | some m => some { s with memory := m.set s.data_ptr 0 }
        else none
      else some s) = some { s with memory := m.set s.data_ptr 0 }
  rw [hv]
  show (if v ≠ 0 then
      if d ≤ s.data_ptr then
        match cell_sub_cell s.memory (s.data_ptr - d) s.data_ptr with
        | none => (none : Option BFState)
        | some m => some { s with memory := m.set s.data_ptr 0 }
      else none
    else some s) = some { s with memory := m.set s.data_ptr 0 }
  rw [if_pos hnz, if_pos hle, hm]

lemma bfStep_SubLeft_zero (instrs : List BFInstr) (s : BFState) (d : Nat)
    (hi : instrs.get? s.pc = some (.SubCellValueLeft d))
    (hv : s.memory.get? s.data_ptr = some 0) :
    bfStep instrs s = some s := by
  unfold bfStep
  rw [hi]
  show (match s.memory.get? s.data_ptr with
    | none => (none : Option BFState)
    | some v =>
      if v ≠ 0 then
        if d ≤ s.data_ptr then
          match cell_sub_cell s.memory (s.data_ptr - d) s.data_ptr with
          | none => none
          | some m => some { s with memory := m.set s.data_ptr 0 }
        else none
      else some s) = some s
  rw [hv]
  rfl

lemma bfStep_FindLeft_eq (instrs : List BFInstr) (s : BFState) (k dp2 : Nat)
    (hi : instrs.get? s.pc = some (.FindZeroCellLeft k))
    (hf : findZeroLeft s.memory k s.data_ptr = some dp2) :
    bfStep instrs s = some { s with data_ptr := dp2 } := by
  unfold bfStep
  rw [hi]
  show (match findZeroLeft s.memory k s.data_ptr with
    | none => (none : Option BFState)
    | some dp => some { s with data_ptr := dp }) = some { s with data_ptr := dp2 }
  rw [hf]

lemma bfStep_FindRight_eq (instrs : List BFInstr) (s : BFState) (k dp2 : Nat)
    (hi : instrs.get? s.pc = some (.FindZeroCellRight k))
    (hf : findZeroRight s.memory k s.data_ptr = some dp2) :
    bfStep instrs s = some { s with data_ptr := dp2 } := by
  unfold bfStep
  rw [hi]
  show (match findZeroRight s.memory k s.data_ptr with
    | none => (none : Option BFState)
    | some dp => some { s with data_ptr := dp }) = some { s with data_ptr := dp2 }
  rw [hf]
lemma wrapping_sub_one (v : Nat) (h1 : 1 ≤ v) (h2 : v < 256) :
    wrapping_sub v 1 % 256 = v - 1 := by
  unfold wrapping_sub USIZE
  omega

/-- Faithful execution of the compiled `[-]` loop body from the body's
first instruction: it zeroes the current cell and falls out of the loop. -/
lemma clear_body_run : ∀ (F : Nat) (mem : List Nat) (dp v : Nat) (inp out : List Nat) (s1 : BFState),
    mem.get? dp = some v → 1 ≤ v → v < 256 →
    runFuel [.LoopStart 2, .DecVal 1, .LoopEnd 0] F ⟨mem, dp, 1, inp, out⟩ = some s1 →
    s1 = ⟨mem.set dp 0, dp, 3, inp, out⟩ := by
  intro F
  induction F using Nat.strong_induction_on with
  | _ F ih =>
    intro mem dp v inp out s1 hv h1 h256 hrun
    have hdp : dp < mem.length := (List.get?_eq_some.mp hv).1
    match F with
    | 0 =>
      rw [runFuel_zero_lt _ _ (by norm_num)] at hrun
      exact Option.noConfusion hrun
    | F2 + 1 =>
      rw [runFuel_succ _ _ _ (by norm_num)] at hrun
      have hs1 : cell_sub_imm mem dp 1 = some (mem.set dp (v - 1)) := by
        unfold cell_sub_imm
        rw [hv]
        show some (mem.set dp (wrapping_sub v 1 % 256)) = some (mem.set dp (v - 1))
        rw [wrapping_sub_one v h1 h256]
      rw [bfStep_DecVal_eq _ ⟨mem, dp, 1, inp, out⟩ 1 _ (by rfl) hs1] at hrun
      have hrun2 : runFuel [.LoopStart 2, .DecVal 1, .LoopEnd 0] F2
          ⟨mem.set dp (v - 1), dp, 2, inp, out⟩ = some s1 := hrun
      have hget2 : (mem.set dp (v - 1)).get? dp = some (v - 1) :=
        List.get?_set_eq_of_lt _ hdp
      match F2 with
      | 0 =>
        rw [runFuel_zero_lt _ _ (by norm_num)] at hrun2
        exact Option.noConfusion hrun2
      | F3 + 1 =>
        rw [runFuel_succ _ _ _ (by norm_num)] at hrun2
        by_cases hz : v - 1 = 0
        · rw [bfStep_LoopEnd_zero _ ⟨mem.set dp (v - 1), dp, 2, inp, out⟩ 0 (by rfl)
            (by rw [hget2, hz])] at hrun2
          have hrun3 : runFuel [.LoopStart 2, .DecVal 1, .LoopEnd 0] F3
              ⟨mem.set dp (v - 1), dp, 3, inp, out⟩ = some s1 := hrun2
          rw [runFuel_done _ _ _ (by norm_num)] at hrun3
          injection hrun3 with hrun3
          rw [← hrun3, hz]
        · rw [bfStep_LoopEnd_pos _ ⟨mem.set dp (v - 1), dp, 2, inp, out⟩ 0 (v - 1) (by rfl)
            hget2 hz] at hrun2
          have hrun3 : runFuel [.LoopStart 2, .DecVal 1, .LoopEnd 0] F3
              ⟨mem.set dp (v - 1), dp, 1, inp, out⟩ = some s1 := hrun2
          have ihr := ih F3 (by omega) (mem.set dp (v - 1)) dp (v - 1) inp out s1 hget2
            (by omega) (by omega) hrun3
          rw [ihr]
          simp [List.set_set]
/-- Faithful execution of the compiled `[[-]]` outer loop body (already
rewritten to `ZeroCurrentCell`) from the body's first instruction. -/
lemma zerocell_body_run (F : Nat) (mem : List Nat) (dp v : Nat) (inp out : List Nat)
    (s1 : BFState) (hv : mem.get? dp = some v)
    (hrun : runFuel [.LoopStart 2, .ZeroCurrentCell, .LoopEnd 0] F
      ⟨mem, dp, 1, inp, out⟩ = some s1) :
    s1 = ⟨mem.set dp 0, dp, 3, inp, out⟩ := by
  have hdp : dp < mem.length := (List.get?_eq_some.mp hv).1
  match F with
  | 0 =>
    rw [runFuel_zero_lt _ _ (by norm_num)] at hrun
    exact Option.noConfusion hrun
  | F2 + 1 =>
    rw [runFuel_succ _ _ _ (by norm_num)] at hrun
    rw [bfStep_Zero_eq _ ⟨mem, dp, 1, inp, out⟩ (by rfl) hdp] at hrun
    have hrun2 : runFuel [.LoopStart 2, .ZeroCurrentCell, .LoopEnd 0] F2
        ⟨mem.set dp 0, dp, 2, inp, out⟩ = some s1 := hrun
    match F2 with
    | 0 =>
      rw [runFuel_zero_lt _ _ (by norm_num)] at hrun2
      exact Option.noConfusion hrun2
    | F3 + 1 =>
      rw [runFuel_succ _ _ _ (by norm_num)] at hrun2
      rw [bfStep_LoopEnd_zero _ ⟨mem.set dp 0, dp, 2, inp, out⟩ 0 (by rfl)
        (List.get?_set_eq_of_lt _ hdp)] at hrun2
      have hrun3 : runFuel [.LoopStart 2, .ZeroCurrentCell, .LoopEnd 0] F3
          ⟨mem.set dp 0, dp, 3, inp, out⟩ = some s1 := hrun2
      rw [runFuel_done _ _ _ (by norm_num)] at hrun3
      injection hrun3 with hrun3
      exact hrun3.symm

lemma bfStep_IncVal_none (instrs : List BFInstr) (s : BFState) (n : Nat)
    (hi : instrs.get? s.pc = some (.IncVal n))
    (hm : cell_add_imm s.memory s.data_ptr n = none) :
    bfStep instrs s = none := by
  unfold bfStep
  rw [hi]
  show (match cell_add_imm s.memory s.data_ptr n with
    | none => (none : Option BFState)
    | some m => some { s with memory := m }) = none
  rw [hm]

lemma bfStep_DecVal_none (instrs : List BFInstr) (s : BFState) (n : Nat)
    (hi : instrs.get? s.pc = some (.DecVal n))
    (hm : cell_sub_imm s.memory s.data_ptr n = none) :
    bfStep instrs s = none := by
  unfold bfStep
  rw [hi]
  show (match cell_sub_imm s.memory s.data_ptr n with
    | none => (none : Option BFState)
    | some m => some { s with memory := m }) = none
  rw [hm]

lemma cell_add_imm_none (mem : List Nat) (c n : Nat) (h : mem.get? c = none) :
    cell_add_imm mem c n = none := by
  unfold cell_add_imm
  rw [h]

lemma cell_sub_imm_none (mem : List Nat) (c n : Nat) (h : mem.get? c = none) :
    cell_sub_imm mem c n = none := by
  unfold cell_sub_imm
  rw [h]

lemma cell_add_imm_some (mem : List Nat) (c n t : Nat) (h : mem.get? c = some t) :
    cell_add_imm mem c n = some (mem.set c (wrapping_add t n % 256)) := by
  unfold cell_add_imm
  rw [h]

lemma cell_sub_imm_some (mem : List Nat) (c n t : Nat) (h : mem.get? c = some t) :
    cell_sub_imm mem c n = some (mem.set c (wrapping_sub t n % 256)) := by
  unfold cell_sub_imm
  rw [h]

/-- Faithful execution of the compiled `[->+<]` loop body (distances `d`)
from the body's first instruction: it adds the current cell into the cell
`d` to the right, zeroes the current cell, and falls out of the loop. -/
lemma addright_body_run (d : Nat) : ∀ (F : Nat) (mem : List Nat) (dp v : Nat)
    (inp out : List Nat) (s1 : BFState),
    mem.get? dp = some v → 1 ≤ v → v < 256 →
    runFuel [.LoopStart 5, .DecVal 1, .IncPC d, .IncVal 1, .DecPC d, .LoopEnd 0] F
      ⟨mem, dp, 1, inp, out⟩ = some s1 →
    ∃ t, mem.get? (dp + d) = some t ∧
      s1 = ⟨(mem.set (dp + d) ((t + v) % 256)).set dp 0, dp, 6, inp, out⟩ := by
  intro F
  induction F using Nat.strong_induction_on with
  | _ F ih =>
    intro mem dp v inp out s1 hv h1 h256 hrun
    have hdp : dp < mem.length := (List.get?_eq_some.mp hv).1
    match F with
    | 0 =>
      rw [runFuel_zero_lt _ _ (by norm_num)] at hrun
      exact Option.noConfusion hrun
    | F2 + 1 =>
      rw [runFuel_succ _ _ _ (by norm_num)] at hrun
      have hs1 : cell_sub_imm mem dp 1 = some (mem.set dp (v - 1)) := by
        rw [cell_sub_imm_some mem dp 1 v hv, wrapping_sub_one v h1 h256]
      rw [bfStep_DecVal_eq _ ⟨mem, dp, 1, inp, out⟩ 1 _ (by rfl) hs1] at hrun
      have hrun2 : runFuel [.LoopStart 5, .DecVal 1, .IncPC d, .IncVal 1, .DecPC d, .LoopEnd 0] F2
          ⟨mem.set dp (v - 1), dp, 2, inp, out⟩ = some s1 := hrun
      match F2 with
      | 0 =>
        rw [runFuel_zero_lt _ _ (by norm_num)] at hrun2
        exact Option.noConfusion hrun2
      | F3 + 1 =>
        rw [runFuel_succ _ _ _ (by norm_num)] at hrun2
        rw [bfStep_IncPC_eq _ ⟨mem.set dp (v - 1), dp, 2, inp, out⟩ d (by rfl)] at hrun2
        have hrun3 : runFuel [.LoopStart 5, .DecVal 1, .IncPC d, .IncVal 1, .DecPC d, .LoopEnd 0] F3
            ⟨mem.set dp (v - 1), dp + d, 3, inp, out⟩ = some s1 := hrun2
        match F3 with
        | 0 =>
          rw [runFuel_zero_lt _ _ (by norm_num)] at hrun3
          exact Option.noConfusion hrun3
        | F4 + 1 =>
          rw [runFuel_succ _ _ _ (by norm_num)] at hrun3
          by_cases hd : d = 0
          · -- the degenerate distance: the increment undoes the decrement
            subst hd
            have hg : (mem.set dp (v - 1)).get? (dp + 0) = some (v - 1) := by
              rw [Nat.add_zero]
              exact List.get?_set_eq_of_lt _ hdp
            have hadd : cell_add_imm (mem.set dp (v - 1)) (dp + 0) 1 =
                some (mem.set dp v) := by
              rw [cell_add_imm_some _ _ 1 (v - 1) hg]
              rw [Nat.add_zero]
              rw [List.set_set]
              have hval : wrapping_add (v - 1) 1 % 256 = v := by
                rw [wrapping_add_mod256]
                omega
              rw [hval]
            rw [bfStep_IncVal_eq _ ⟨mem.set dp (v - 1), dp + 0, 3, inp, out⟩ 1 _ (by rfl)
              hadd] at hrun3
            have hmb : mem.set dp v = mem := set_get_same mem dp v hv
            rw [hmb] at hrun3
            have hrun4 : runFuel
                [.LoopStart 5, .DecVal 1, .IncPC 0, .IncVal 1, .DecPC 0, .LoopEnd 0] F4
                ⟨mem, dp + 0, 4, inp, out⟩ = some s1 := hrun3
            match F4 with
            | 0 =>
              rw [runFuel_zero_lt _ _ (by norm_num)] at hrun4
              exact Option.noConfusion hrun4
            | F5 + 1 =>
              rw [runFuel_succ _ _ _ (by norm_num)] at hrun4
              rw [bfStep_DecPC_eq _ ⟨mem, dp + 0, 4, inp, out⟩ 0 (by rfl)
                (Nat.zero_le _)] at hrun4
              have hrun5 : runFuel
                  [.LoopStart 5, .DecVal 1, .IncPC 0, .IncVal 1, .DecPC 0, .LoopEnd 0] F5
                  ⟨mem, dp + 0 - 0, 5, inp, out⟩ = some s1 := hrun4
              rw [show dp + 0 - 0 = dp from rfl] at hrun5
              match F5 with
              | 0 =>
                rw [runFuel_zero_lt _ _ (by norm_num)] at hrun5
                exact Option.noConfusion hrun5
              | F6 + 1 =>
                rw [runFuel_succ _ _ _ (by norm_num)] at hrun5
                rw [bfStep_LoopEnd_pos _ ⟨mem, dp, 5, inp, out⟩ 0 v (by rfl) hv
                  (by omega)] at hrun5
                have hrun6 : runFuel
                    [.LoopStart 5, .DecVal 1, .IncPC 0, .IncVal 1, .DecPC 0, .LoopEnd 0] F6
                    ⟨mem, dp, 1, inp, out⟩ = some s1 := hrun5
                exact ih F6 (by omega) mem dp v inp out s1 hv h1 h256 hrun6
          · -- genuine move: the target cell is distinct from the source
            have hne : dp ≠ dp + d := by omega
            cases hg : mem.get? (dp + d) with
            | none =>
              have hnone : cell_add_imm (mem.set dp (v - 1)) (dp + d) 1 = none := by
                apply cell_add_imm_none
                rw [List.get?_set_ne _ _ hne]
                exact hg
              rw [bfStep_IncVal_none _ ⟨mem.set dp (v - 1), dp + d, 3, inp, out⟩ 1 (by rfl)
                hnone] at hrun3
              exact Option.noConfusion hrun3
            | some t =>
              refine ⟨t, rfl, ?_⟩
              have hgt : (mem.set dp (v - 1)).get? (dp + d) = some t := by
                rw [List.get?_set_ne _ _ hne]
                exact hg
              have hadd : cell_add_imm (mem.set dp (v - 1)) (dp + d) 1 =
                  some ((mem.set dp (v - 1)).set (dp + d) ((t + 1) % 256)) := by
                rw [cell_add_imm_some _ _ 1 t hgt, wrapping_add_mod256]
              rw [bfStep_IncVal_eq _ ⟨mem.set dp (v - 1), dp + d, 3, inp, out⟩ 1 _ (by rfl)
                hadd] at hrun3
              have hrun4 : runFuel
                  [.LoopStart 5, .DecVal 1, .IncPC d, .IncVal 1, .DecPC d, .LoopEnd 0] F4
                  ⟨(mem.set dp (v - 1)).set (dp + d) ((t + 1) % 256), dp + d, 4, inp, out⟩ =
                  some s1 := hrun3
              match F4 with
              | 0 =>
                rw [runFuel_zero_lt _ _ (by norm_num)] at hrun4
                exact Option.noConfusion hrun4
              | F5 + 1 =>
                rw [runFuel_succ _ _ _ (by norm_num)] at hrun4
                rw [bfStep_DecPC_eq _
                  ⟨(mem.set dp (v - 1)).set (dp + d) ((t + 1) % 256), dp + d, 4, inp, out⟩ d
                  (by rfl) (by show d ≤ dp + d; omega)] at hrun4
                have hrun5 : runFuel
                    [.LoopStart 5, .DecVal 1, .IncPC d, .IncVal 1, .DecPC d, .LoopEnd 0] F5
                    ⟨(mem.set dp (v - 1)).set (dp + d) ((t + 1) % 256), dp + d - d, 5, inp, out⟩ =
                    some s1 := hrun4
                rw [Nat.add_sub_cancel] at hrun5
                have hcell5 : ((mem.set dp (v - 1)).set (dp + d) ((t + 1) % 256)).get? dp =
                    some (v - 1) := by
                  rw [List.get?_set_ne _ _ (by omega)]
                  exact List.get?_set_eq_of_lt _ hdp
                match F5 with
                | 0 =>
                  rw [runFuel_zero_lt _ _ (by norm_num)] at hrun5
                  exact Option.noConfusion hrun5
                | F6 + 1 =>
                  rw [runFuel_succ _ _ _ (by norm_num)] at hrun5
                  by_cases hz : v - 1 = 0
                  · rw [bfStep_LoopEnd_zero _
                      ⟨(mem.set dp (v - 1)).set (dp + d) ((t + 1) % 256), dp, 5, inp, out⟩ 0
                      (by rfl) (by rw [hcell5, hz])] at hrun5
                    have hrun6 : runFuel
                        [.LoopStart 5, .DecVal 1, .IncPC d, .IncVal 1, .DecPC d, .LoopEnd 0] F6
                        ⟨(mem.set dp (v - 1)).set (dp + d) ((t + 1) % 256), dp, 6, inp, out⟩ =
                        some s1 := hrun5
                    rw [runFuel_done _ _ _ (by norm_num)] at hrun6
                    injection hrun6 with hrun6
                    rw [← hrun6]
                    have hveq : v = 1 := by omega
                    subst hveq
                    simp only [BFState.mk.injEq, and_true]
                    rw [show (1 : Nat) - 1 = 0 from rfl]
                    rw [List.set_comm _ _ _ (by omega)]
                  · rw [bfStep_LoopEnd_pos _
                      ⟨(mem.set dp (v - 1)).set (dp + d) ((t + 1) % 256), dp, 5, inp, out⟩ 0
                      (v - 1) (by rfl) hcell5 hz] at hrun5
                    have hrun6 : runFuel
                        [.LoopStart 5, .DecVal 1, .IncPC d, .IncVal 1, .DecPC d, .LoopEnd 0] F6
                        ⟨(mem.set dp (v - 1)).set (dp + d) ((t + 1) % 256), dp, 1, inp, out⟩ =
                        some s1 := hrun5
                    have hcellnew : ((mem.set dp (v - 1)).set (dp + d) ((t + 1) % 256)).get? dp =
                        some (v - 1) := hcell5
                    obtain ⟨t2, ht2, hs⟩ := ih F6 (by omega) _ dp (v - 1) inp out s1 hcellnew
                      (by omega) (by omega) hrun6
                    have ht2v : t2 = (t + 1) % 256 := by
                      rw [List.get?_set_eq_of_lt] at ht2
                      · injection ht2 with ht2
                        exact ht2.symm
                      · rw [List.length_set]
                        simpa using (List.get?_eq_some.mp hgt).1
                    subst ht2v
                    rw [hs]
                    simp only [BFState.mk.injEq, and_true]
                    rw [List.set_set]
                    have harith : (((t + 1) % 256) + (v - 1)) % 256 = (t + v) % 256 := by
                      rw [Nat.mod_add_mod]
                      congr 1
                      omega
                    rw [harith]
                    rw [List.set_comm _ _ _ (by omega), List.set_set]
                    rw [List.set_comm _ _ _ (by omega)]
lemma bfStep_DecPC_none (instrs : List BFInstr) (s : BFState) (n : Nat)
    (hi : instrs.get? s.pc = some (.DecPC n)) (h : ¬ n ≤ s.data_ptr) :
    bfStep instrs s = none := by
  unfold bfStep
  rw [hi]
  show (if n ≤ s.data_ptr then some { s with data_ptr := s.data_ptr - n } else none) = none
  rw [if_neg h]

/-- Faithful execution of the compiled `[-<+>]` loop body (distances `d`)
from the body's first instruction. -/
lemma addleft_body_run (d : Nat) : ∀ (F : Nat) (mem : List Nat) (dp v : Nat)
    (inp out : List Nat) (s1 : BFState),
    mem.get? dp = some v → 1 ≤ v → v < 256 →
    runFuel [.LoopStart 5, .DecVal 1, .DecPC d, .IncVal 1, .IncPC d, .LoopEnd 0] F
      ⟨mem, dp, 1, inp, out⟩ = some s1 →
    ∃ t, d ≤ dp ∧ mem.get? (dp - d) = some t ∧
      s1 = ⟨(mem.set (dp - d) ((t + v) % 256)).set dp 0, dp, 6, inp, out⟩ := by
  intro F
  induction F using Nat.strong_induction_on with
  | _ F ih =>
    intro mem dp v inp out s1 hv h1 h256 hrun
    have hdp : dp < mem.length := (List.get?_eq_some.mp hv).1
    match F with
    | 0 =>
      rw [runFuel_zero_lt _ _ (by norm_num)] at hrun
      exact Option.noConfusion hrun
    | F2 + 1 =>
      rw [runFuel_succ _ _ _ (by norm_num)] at hrun
      have hs1 : cell_sub_imm mem dp 1 = some (mem.set dp (v - 1)) := by
        rw [cell_sub_imm_some mem dp 1 v hv, wrapping_sub_one v h1 h256]
      rw [bfStep_DecVal_eq _ ⟨mem, dp, 1, inp, out⟩ 1 _ (by rfl) hs1] at hrun
      have hrun2 : runFuel [.LoopStart 5, .DecVal 1, .DecPC d, .IncVal 1, .IncPC d, .LoopEnd 0] F2
          ⟨mem.set dp (v - 1), dp, 2, inp, out⟩ = some s1 := hrun
      match F2 with
      | 0 =>
        rw [runFuel_zero_lt _ _ (by norm_num)] at hrun2
        exact Option.noConfusion hrun2
      | F3 + 1 =>
        rw [runFuel_succ _ _ _ (by norm_num)] at hrun2
        by_cases hled : d ≤ dp
        case neg =>
          rw [bfStep_DecPC_none _ ⟨mem.set dp (v - 1), dp, 2, inp, out⟩ d (by rfl)
            (by show ¬ d ≤ dp; omega)] at hrun2
          exact Option.noConfusion hrun2
        case pos =>
        rw [bfStep_DecPC_eq _ ⟨mem.set dp (v - 1), dp, 2, inp, out⟩ d (by rfl)
          (by show d ≤ dp; omega)] at hrun2
        have hrun3 : runFuel [.LoopStart 5, .DecVal 1, .DecPC d, .IncVal 1, .IncPC d, .LoopEnd 0] F3
            ⟨mem.set dp (v - 1), dp - d, 3, inp, out⟩ = some s1 := hrun2
        match F3 with
        | 0 =>
          rw [runFuel_zero_lt _ _ (by norm_num)] at hrun3
          exact Option.noConfusion hrun3
        | F4 + 1 =>
          rw [runFuel_succ _ _ _ (by norm_num)] at hrun3
          by_cases hd : d = 0
          · subst hd
            have hg : (mem.set dp (v - 1)).get? (dp - 0) = some (v - 1) := by
              rw [Nat.sub_zero]
              exact List.get?_set_eq_of_lt _ hdp
            have hadd : cell_add_imm (mem.set dp (v - 1)) (dp - 0) 1 =
                some (mem.set dp v) := by
              rw [cell_add_imm_some _ _ 1 (v - 1) hg]
              rw [Nat.sub_zero]
              rw [List.set_set]
              have hval : wrapping_add (v - 1) 1 % 256 = v := by
                rw [wrapping_add_mod256]
                omega
              rw [hval]
            rw [bfStep_IncVal_eq _ ⟨mem.set dp (v - 1), dp - 0, 3, inp, out⟩ 1 _ (by rfl)
              hadd] at hrun3
            have hmb : mem.set dp v = mem := set_get_same mem dp v hv
            rw [hmb] at hrun3
            have hrun4 : runFuel
                [.LoopStart 5, .DecVal 1, .DecPC 0, .IncVal 1, .IncPC 0, .LoopEnd 0] F4
                ⟨mem, dp - 0, 4, inp, out⟩ = some s1 := hrun3
            match F4 with
            | 0 =>
              rw [runFuel_zero_lt _ _ (by norm_num)] at hrun4
              exact Option.noConfusion hrun4
            | F5 + 1 =>
              rw [runFuel_succ _ _ _ (by norm_num)] at hrun4
              rw [bfStep_IncPC_eq _ ⟨mem, dp - 0, 4, inp, out⟩ 0 (by rfl)] at hrun4
              have hrun5 : runFuel
                  [.LoopStart 5, .DecVal 1, .DecPC 0, .IncVal 1, .IncPC 0, .LoopEnd 0] F5
                  ⟨mem, dp - 0 + 0, 5, inp, out⟩ = some s1 := hrun4
              rw [show dp - 0 + 0 = dp from rfl] at hrun5
              match F5 with
              | 0 =>
                rw [runFuel_zero_lt _ _ (by norm_num)] at hrun5
                exact Option.noConfusion hrun5
              | F6 + 1 =>
                rw [runFuel_succ _ _ _ (by norm_num)] at hrun5
                rw [bfStep_LoopEnd_pos _ ⟨mem, dp, 5, inp, out⟩ 0 v (by rfl) hv
                  (by omega)] at hrun5
                have hrun6 : runFuel
                    [.LoopStart 5, .DecVal 1, .DecPC 0, .IncVal 1, .IncPC 0, .LoopEnd 0] F6
                    ⟨mem, dp, 1, inp, out⟩ = some s1 := hrun5
                exact ih F6 (by omega) mem dp v inp out s1 hv h1 h256 hrun6
          · have hne : dp ≠ dp - d := by omega
            cases hg : mem.get? (dp - d) with
            | none =>
              have hnone : cell_add_imm (mem.set dp (v - 1)) (dp - d) 1 = none := by
                apply cell_add_imm_none
                rw [List.get?_set_ne _ _ hne]
                exact hg
              rw [bfStep_IncVal_none _ ⟨mem.set dp (v - 1), dp - d, 3, inp, out⟩ 1 (by rfl)
                hnone] at hrun3
              exact Option.noConfusion hrun3
            | some t =>
              refine ⟨t, hled, rfl, ?_⟩
              have hgt : (mem.set dp (v - 1)).get? (dp - d) = some t := by
                rw [List.get?_set_ne _ _ hne]
                exact hg
              have hadd : cell_add_imm (mem.set dp (v - 1)) (dp - d) 1 =
                  some ((mem.set dp (v - 1)).set (dp - d) ((t + 1) % 256)) := by
                rw [cell_add_imm_some _ _ 1 t hgt, wrapping_add_mod256]
              rw [bfStep_IncVal_eq _ ⟨mem.set dp (v - 1), dp - d, 3, inp, out⟩ 1 _ (by rfl)
                hadd] at hrun3
              have hrun4 : runFuel
                  [.LoopStart 5, .DecVal 1, .DecPC d, .IncVal 1, .IncPC d, .LoopEnd 0] F4
                  ⟨(mem.set dp (v - 1)).set (dp - d) ((t + 1) % 256), dp - d, 4, inp, out⟩ =
                  some s1 := hrun3
              match F4 with
              | 0 =>
                rw [runFuel_zero_lt _ _ (by norm_num)] at hrun4
                exact Option.noConfusion hrun4
              | F5 + 1 =>
                rw [runFuel_succ _ _ _ (by norm_num)] at hrun4
                rw [bfStep_IncPC_eq _
                  ⟨(mem.set dp (v - 1)).set (dp - d) ((t + 1) % 256), dp - d, 4, inp, out⟩ d
                  (by rfl)] at hrun4
                have hrun5 : runFuel
                    [.LoopStart 5, .DecVal 1, .DecPC d, .IncVal 1, .IncPC d, .LoopEnd 0] F5
                    ⟨(mem.set dp (v - 1)).set (dp - d) ((t + 1) % 256), dp - d + d, 5, inp, out⟩ =
                    some s1 := hrun4
                rw [Nat.sub_add_cancel hled] at hrun5
                have hcell5 : ((mem.set dp (v - 1)).set (dp - d) ((t + 1) % 256)).get? dp =
                    some (v - 1) := by
                  rw [List.get?_set_ne _ _ (by omega)]
                  exact List.get?_set_eq_of_lt _ hdp
                match F5 with
                | 0 =>
                  rw [runFuel_zero_lt _ _ (by norm_num)] at hrun5
                  exact Option.noConfusion hrun5
                | F6 + 1 =>
                  rw [runFuel_succ _ _ _ (by norm_num)] at hrun5
                  by_cases hz : v - 1 = 0
                  · rw [bfStep_LoopEnd_zero _
                      ⟨(mem.set dp (v - 1)).set (dp - d) ((t + 1) % 256), dp, 5, inp, out⟩ 0
                      (by rfl) (by rw [hcell5, hz])] at hrun5
                    have hrun6 : runFuel
                        [.LoopStart 5, .DecVal 1, .DecPC d, .IncVal 1, .IncPC d, .LoopEnd 0] F6
                        ⟨(mem.set dp (v - 1)).set (dp - d) ((t + 1) % 256), dp, 6, inp, out⟩ =
                        some s1 := hrun5
                    rw [runFuel_done _ _ _ (by norm_num)] at hrun6
                    injection hrun6 with hrun6
                    rw [← hrun6]
                    have hveq : v = 1 := by omega
                    subst hveq
                    simp only [BFState.mk.injEq, and_true]
                    rw [show (1 : Nat) - 1 = 0 from rfl]
                    rw [List.set_comm _ _ _ (by omega)]
                  · rw [bfStep_LoopEnd_pos _
                      ⟨(mem.set dp (v - 1)).set (dp - d) ((t + 1) % 256), dp, 5, inp, out⟩ 0
                      (v - 1) (by rfl) hcell5 hz] at hrun5
                    have hrun6 : runFuel
                        [.LoopStart 5, .DecVal 1, .DecPC d, .IncVal 1, .IncPC d, .LoopEnd 0] F6
                        ⟨(mem.set dp (v - 1)).set (dp - d) ((t + 1) % 256), dp, 1, inp, out⟩ =
                        some s1 := hrun5
                    obtain ⟨t2, hled2, ht2, hs⟩ := ih F6 (by omega) _ dp (v - 1) inp out s1 hcell5
                      (by omega) (by omega) hrun6
                    have ht2v : t2 = (t + 1) % 256 := by
                      rw [List.get?_set_eq_of_lt] at ht2
                      · injection ht2 with ht2
                        exact ht2.symm
                      · rw [List.length_set]
                        simpa using (List.get?_eq_some.mp hgt).1
                    subst ht2v
                    rw [hs]
                    simp only [BFState.mk.injEq, and_true]
                    rw [List.set_set]
                    have harith : (((t + 1) % 256) + (v - 1)) % 256 = (t + v) % 256 := by
                      rw [Nat.mod_add_mod]
                      congr 1
                      omega
                    rw [harith]
                    rw [List.set_comm _ _ _ (by omega), List.set_set]
                    rw [List.set_comm _ _ _ (by omega)]
set_option maxRecDepth 10000 in
/-- Faithful execution of the compiled `[->-<]` loop body (distances `d`)
from the body's first instruction. -/
lemma subright_body_run (d : Nat) : ∀ (F : Nat) (mem : List Nat) (dp v : Nat)
    (inp out : List Nat) (s1 : BFState),
    mem.get? dp = some v → 1 ≤ v → v < 256 →
    runFuel [.LoopStart 5, .DecVal 1, .IncPC d, .DecVal 1, .DecPC d, .LoopEnd 0] F
      ⟨mem, dp, 1, inp, out⟩ = some s1 →
    ∃ t, mem.get? (dp + d) = some t ∧
      s1 = ⟨(mem.set (dp + d) (wrapping_sub t v % 256)).set dp 0, dp, 6, inp, out⟩ := by
  intro F
  induction F using Nat.strong_induction_on with
  | _ F ih =>
    intro mem dp v inp out s1 hv h1 h256 hrun
    have hdp : dp < mem.length := (List.get?_eq_some.mp hv).1
    match F with
    | 0 =>
      rw [runFuel_zero_lt _ _ (by norm_num)] at hrun
      exact Option.noConfusion hrun
    | F2 + 1 =>
      rw [runFuel_succ _ _ _ (by norm_num)] at hrun
      have hs1 : cell_sub_imm mem dp 1 = some (mem.set dp (v - 1)) := by
        rw [cell_sub_imm_some mem dp 1 v hv, wrapping_sub_one v h1 h256]
      rw [bfStep_DecVal_eq _ ⟨mem, dp, 1, inp, out⟩ 1 _ (by rfl) hs1] at hrun
      have hrun2 : runFuel [.LoopStart 5, .DecVal 1, .IncPC d, .DecVal 1, .DecPC d, .LoopEnd 0] F2
          ⟨mem.set dp (v - 1), dp, 2, inp, out⟩ = some s1 := hrun
      match F2 with
      | 0 =>
        rw [runFuel_zero_lt _ _ (by norm_num)] at hrun2
        exact Option.noConfusion hrun2
      | F3 + 1 =>
        rw [runFuel_succ _ _ _ (by norm_num)] at hrun2
        rw [bfStep_IncPC_eq _ ⟨mem.set dp (v - 1), dp, 2, inp, out⟩ d (by rfl)] at hrun2
        have hrun3 : runFuel [.LoopStart 5, .DecVal 1, .IncPC d, .DecVal 1, .DecPC d, .LoopEnd 0] F3
            ⟨mem.set dp (v - 1), dp + d, 3, inp, out⟩ = some s1 := hrun2
        match F3 with
        | 0 =>
          rw [runFuel_zero_lt _ _ (by norm_num)] at hrun3
          exact Option.noConfusion hrun3
        | F4 + 1 =>
          rw [runFuel_succ _ _ _ (by norm_num)] at hrun3
          by_cases hd : d = 0
          · subst hd
            have hg : (mem.set dp (v - 1)).get? (dp + 0) = some (v - 1) := by
              rw [Nat.add_zero]
              exact List.get?_set_eq_of_lt _ hdp
            obtain ⟨c, hc⟩ : ∃ c, wrapping_sub (v - 1) 1 % 256 = c := ⟨_, rfl⟩
            have hcb : c < 256 := by
              rw [← hc]
              exact Nat.mod_lt _ (by norm_num)
            have hsub : cell_sub_imm (mem.set dp (v - 1)) (dp + 0) 1 =
                some (mem.set dp c) := by
              rw [cell_sub_imm_some _ _ 1 (v - 1) hg]
              rw [Nat.add_zero, List.set_set, hc]
            rw [bfStep_DecVal_eq _ ⟨mem.set dp (v - 1), dp + 0, 3, inp, out⟩ 1 _ (by rfl)
              hsub] at hrun3
            have hrun4 : runFuel
                [.LoopStart 5, .DecVal 1, .IncPC 0, .DecVal 1, .DecPC 0, .LoopEnd 0] F4
                ⟨mem.set dp c, dp + 0, 4, inp, out⟩ = some s1 := hrun3
            match F4 with
            | 0 =>
              rw [runFuel_zero_lt _ _ (by norm_num)] at hrun4
              exact Option.noConfusion hrun4
            | F5 + 1 =>
              rw [runFuel_succ _ _ _ (by norm_num)] at hrun4
              rw [bfStep_DecPC_eq _ ⟨mem.set dp c, dp + 0, 4, inp, out⟩ 0 (by rfl)
                (Nat.zero_le _)] at hrun4
              have hrun5 : runFuel
                  [.LoopStart 5, .DecVal 1, .IncPC 0, .DecVal 1, .DecPC 0, .LoopEnd 0] F5
                  ⟨mem.set dp c, dp + 0 - 0, 5, inp, out⟩ = some s1 := hrun4
              rw [show dp + 0 - 0 = dp from rfl] at hrun5
              have hc2 : (mem.set dp c).get? dp = some c := List.get?_set_eq_of_lt _ hdp
              match F5 with
              | 0 =>
                rw [runFuel_zero_lt _ _ (by norm_num)] at hrun5
                exact Option.noConfusion hrun5
              | F6 + 1 =>
                rw [runFuel_succ _ _ _ (by norm_num)] at hrun5
                by_cases hz : c = 0
                · rw [bfStep_LoopEnd_zero _ ⟨mem.set dp c, dp, 5, inp, out⟩ 0
                    (by rfl) (by rw [hc2, hz])] at hrun5
                  have hrun6 : runFuel
                      [.LoopStart 5, .DecVal 1, .IncPC 0, .DecVal 1, .DecPC 0, .LoopEnd 0] F6
                      ⟨mem.set dp c, dp, 6, inp, out⟩ = some s1 := hrun5
                  rw [runFuel_done _ _ _ (by norm_num)] at hrun6
                  injection hrun6 with hrun6
                  refine ⟨v, by rw [Nat.add_zero]; exact hv, ?_⟩
                  rw [← hrun6, hz]
                  simp only [BFState.mk.injEq, and_true, Nat.add_zero]
                  rw [List.set_set]
                · rw [bfStep_LoopEnd_pos _ ⟨mem.set dp c, dp, 5, inp, out⟩ 0
                    c (by rfl) hc2 hz] at hrun5
                  have hrun6 : runFuel
                      [.LoopStart 5, .DecVal 1, .IncPC 0, .DecVal 1, .DecPC 0, .LoopEnd 0] F6
                      ⟨mem.set dp c, dp, 1, inp, out⟩ = some s1 := hrun5
                  obtain ⟨t2, ht2, hs⟩ := ih F6 (by omega) _ dp c
                    inp out s1 hc2 (by omega) hcb hrun6
                  refine ⟨v, by rw [Nat.add_zero]; exact hv, ?_⟩
                  rw [hs]
                  simp only [BFState.mk.injEq, and_true, Nat.add_zero]
                  simp [List.set_set]
          · have hne : dp ≠ dp + d := by omega
            cases hg : mem.get? (dp + d) with
            | none =>
              have hnone : cell_sub_imm (mem.set dp (v - 1)) (dp + d) 1 = none := by
                apply cell_sub_imm_none
                rw [List.get?_set_ne _ _ hne]
                exact hg
              rw [bfStep_DecVal_none _ ⟨mem.set dp (v - 1), dp + d, 3, inp, out⟩ 1 (by rfl)
                hnone] at hrun3
              exact Option.noConfusion hrun3
            | some t =>
              refine ⟨t, rfl, ?_⟩
              have hgt : (mem.set dp (v - 1)).get? (dp + d) = some t := by
                rw [List.get?_set_ne _ _ hne]
                exact hg
              obtain ⟨c, hc⟩ : ∃ c, wrapping_sub t 1 % 256 = c := ⟨_, rfl⟩
              have hcb : c < 256 := by
                rw [← hc]
                exact Nat.mod_lt _ (by norm_num)
              have hsub : cell_sub_imm (mem.set dp (v - 1)) (dp + d) 1 =
                  some ((mem.set dp (v - 1)).set (dp + d) c) := by
                rw [cell_sub_imm_some _ _ 1 t hgt, hc]
              rw [bfStep_DecVal_eq _ ⟨mem.set dp (v - 1), dp + d, 3, inp, out⟩ 1 _ (by rfl)
                hsub] at hrun3
              have hrun4 : runFuel
                  [.LoopStart 5, .DecVal 1, .IncPC d, .DecVal 1, .DecPC d, .LoopEnd 0] F4
                  ⟨(mem.set dp (v - 1)).set (dp + d) c, dp + d, 4, inp, out⟩ = some s1 := hrun3
              match F4 with
              | 0 =>
                rw [runFuel_zero_lt _ _ (by norm_num)] at hrun4
                exact Option.noConfusion hrun4
              | F5 + 1 =>
                rw [runFuel_succ _ _ _ (by norm_num)] at hrun4
                rw [bfStep_DecPC_eq _
                  ⟨(mem.set dp (v - 1)).set (dp + d) c, dp + d, 4, inp, out⟩ d
                  (by rfl) (by show d ≤ dp + d; omega)] at hrun4
                have hrun5 : runFuel
                    [.LoopStart 5, .DecVal 1, .IncPC d, .DecVal 1, .DecPC d, .LoopEnd 0] F5
                    ⟨(mem.set dp (v - 1)).set (dp + d) c, dp + d - d, 5, inp, out⟩ =
                    some s1 := hrun4
                rw [Nat.add_sub_cancel] at hrun5
                have hcell5 : ((mem.set dp (v - 1)).set (dp + d) c).get? dp =
                    some (v - 1) := by
                  rw [List.get?_set_ne _ _ (by omega)]
                  exact List.get?_set_eq_of_lt _ hdp
                match F5 with
                | 0 =>
                  rw [runFuel_zero_lt _ _ (by norm_num)] at hrun5
                  exact Option.noConfusion hrun5
                | F6 + 1 =>
                  rw [runFuel_succ _ _ _ (by norm_num)] at hrun5
                  by_cases hz : v - 1 = 0
                  · rw [bfStep_LoopEnd_zero _
                      ⟨(mem.set dp (v - 1)).set (dp + d) c, dp, 5, inp, out⟩ 0
                      (by rfl) (by rw [hcell5, hz])] at hrun5
                    have hrun6 : runFuel
                        [.LoopStart 5, .DecVal 1, .IncPC d, .DecVal 1, .DecPC d, .LoopEnd 0] F6
                        ⟨(mem.set dp (v - 1)).set (dp + d) c, dp, 6, inp, out⟩ =
                        some s1 := hrun5
                    rw [runFuel_done _ _ _ (by norm_num)] at hrun6
                    have hrun7 := Option.some.inj hrun6
                    rw [← hrun7]
                    have hveq : v = 1 := by omega
                    rw [hveq, hc]
                    simp only [BFState.mk.injEq, and_true]
                    rw [show (1 : Nat) - 1 = 0 from rfl]
                    rw [List.set_comm _ _ _ (by omega)]
                  · rw [bfStep_LoopEnd_pos _
                      ⟨(mem.set dp (v - 1)).set (dp + d) c, dp, 5, inp, out⟩ 0
                      (v - 1) (by rfl) hcell5 hz] at hrun5
                    have hrun6 : runFuel
                        [.LoopStart 5, .DecVal 1, .IncPC d, .DecVal 1, .DecPC d, .LoopEnd 0] F6
                        ⟨(mem.set dp (v - 1)).set (dp + d) c, dp, 1, inp, out⟩ =
                        some s1 := hrun5
                    obtain ⟨t2, ht2, hs⟩ := ih F6 (by omega) _ dp (v - 1) inp out s1 hcell5
                      (by omega) (by omega) hrun6
                    have hx : ((mem.set dp (v - 1)).set (dp + d) c).get? (dp + d) =
                        some c := by
                      apply List.get?_set_eq_of_lt
                      rw [List.length_set]
                      simpa using (List.get?_eq_some.mp hgt).1
                    have ht2v : t2 = c := Option.some.inj (ht2.symm.trans hx)
                    rw [ht2v] at hs
                    rw [hs]
                    simp only [BFState.mk.injEq, and_true]
                    rw [List.set_set]
                    have harith : wrapping_sub c (v - 1) % 256 = wrapping_sub t v % 256 := by
                      rw [← hc, wrapping_sub_mod256, wrapping_sub_mod256, wrapping_sub_mod256]
                      omega
                    rw [harith]
                    rw [List.set_comm _ _ _ (by omega), List.set_set]
                    rw [List.set_comm _ _ _ (by omega)]
set_option maxRecDepth 10000 in
/-- Faithful execution of the compiled `[-<->]` loop body (distances `d`)
from the body's first instruction. -/
lemma subleft_body_run (d : Nat) : ∀ (F : Nat) (mem : List Nat) (dp v : Nat)
    (inp out : List Nat) (s1 : BFState),
    mem.get? dp = some v → 1 ≤ v → v < 256 →
    runFuel [.LoopStart 5, .DecVal 1, .DecPC d, .DecVal 1, .IncPC d, .LoopEnd 0] F
      ⟨mem, dp, 1, inp, out⟩ = some s1 →
    ∃ t, d ≤ dp ∧ mem.get? (dp - d) = some t ∧
      s1 = ⟨(mem.set (dp - d) (wrapping_sub t v % 256)).set dp 0, dp, 6, inp, out⟩ := by
  intro F
  induction F using Nat.strong_induction_on with
  | _ F ih =>
    intro mem dp v inp out s1 hv h1 h256 hrun
    have hdp : dp < mem.length := (List.get?_eq_some.mp hv).1
    match F with
    | 0 =>
      rw [runFuel_zero_lt _ _ (by norm_num)] at hrun
      exact Option.noConfusion hrun
    | F2 + 1 =>
      rw [runFuel_succ _ _ _ (by norm_num)] at hrun
      have hs1 : cell_sub_imm mem dp 1 = some (mem.set dp (v - 1)) := by
        rw [cell_sub_imm_some mem dp 1 v hv, wrapping_sub_one v h1 h256]
      rw [bfStep_DecVal_eq _ ⟨mem, dp, 1, inp, out⟩ 1 _ (by rfl) hs1] at hrun
      have hrun2 : runFuel [.LoopStart 5, .DecVal 1, .DecPC d, .DecVal 1, .IncPC d, .LoopEnd 0] F2
          ⟨mem.set dp (v - 1), dp, 2, inp, out⟩ = some s1 := hrun
      match F2 with
      | 0 =>
        rw [runFuel_zero_lt _ _ (by norm_num)] at hrun2
        exact Option.noConfusion hrun2
      | F3 + 1 =>
        rw [runFuel_succ _ _ _ (by norm_num)] at hrun2
        by_cases hled : d ≤ dp
        case neg =>
          rw [bfStep_DecPC_none _ ⟨mem.set dp (v - 1), dp, 2, inp, out⟩ d (by rfl)
            (by show ¬ d ≤ dp; omega)] at hrun2
          exact Option.noConfusion hrun2
        case pos =>
        rw [bfStep_DecPC_eq _ ⟨mem.set dp (v - 1), dp, 2, inp, out⟩ d (by rfl)
          (by show d ≤ dp; omega)] at hrun2
        have hrun3 : runFuel [.LoopStart 5, .DecVal 1, .DecPC d, .DecVal 1, .IncPC d, .LoopEnd 0] F3
            ⟨mem.set dp (v - 1), dp - d, 3, inp, out⟩ = some s1 := hrun2
        match F3 with
        | 0 =>
          rw [runFuel_zero_lt _ _ (by norm_num)] at hrun3
          exact Option.noConfusion hrun3
        | F4 + 1 =>
          rw [runFuel_succ _ _ _ (by norm_num)] at hrun3
          by_cases hd : d = 0
          · subst hd
            have hg : (mem.set dp (v - 1)).get? (dp - 0) = some (v - 1) := by
              rw [Nat.sub_zero]
              exact List.get?_set_eq_of_lt _ hdp
            obtain ⟨c, hc⟩ : ∃ c, wrapping_sub (v - 1) 1 % 256 = c := ⟨_, rfl⟩
            have hcb : c < 256 := by
              rw [← hc]
              exact Nat.mod_lt _ (by norm_num)
            have hsub : cell_sub_imm (mem.set dp (v - 1)) (dp - 0) 1 =
                some (mem.set dp c) := by
              rw [cell_sub_imm_some _ _ 1 (v - 1) hg]
              rw [Nat.sub_zero, List.set_set, hc]
            rw [bfStep_DecVal_eq _ ⟨mem.set dp (v - 1), dp - 0, 3, inp, out⟩ 1 _ (by rfl)
              hsub] at hrun3
            have hrun4 : runFuel
                [.LoopStart 5, .DecVal 1, .DecPC 0, .DecVal 1, .IncPC 0, .LoopEnd 0] F4
                ⟨mem.set dp c, dp - 0, 4, inp, out⟩ = some s1 := hrun3
            match F4 with
            | 0 =>
              rw [runFuel_zero_lt _ _ (by norm_num)] at hrun4
              exact Option.noConfusion hrun4
            | F5 + 1 =>
              rw [runFuel_succ _ _ _ (by norm_num)] at hrun4
              rw [bfStep_IncPC_eq _ ⟨mem.set dp c, dp - 0, 4, inp, out⟩ 0 (by rfl)] at hrun4
              have hrun5 : runFuel
                  [.LoopStart 5, .DecVal 1, .DecPC 0, .DecVal 1, .IncPC 0, .LoopEnd 0] F5
                  ⟨mem.set dp c, dp - 0 + 0, 5, inp, out⟩ = some s1 := hrun4
              rw [show dp - 0 + 0 = dp from rfl] at hrun5
              have hc2 : (mem.set dp c).get? dp = some c := List.get?_set_eq_of_lt _ hdp
              match F5 with
              | 0 =>
                rw [runFuel_zero_lt _ _ (by norm_num)] at hrun5
                exact Option.noConfusion hrun5
              | F6 + 1 =>
                rw [runFuel_succ _ _ _ (by norm_num)] at hrun5
                by_cases hz : c = 0
                · rw [bfStep_LoopEnd_zero _ ⟨mem.set dp c, dp, 5, inp, out⟩ 0
                    (by rfl) (by rw [hc2, hz])] at hrun5
                  have hrun6 : runFuel
                      [.LoopStart 5, .DecVal 1, .DecPC 0, .DecVal 1, .IncPC 0, .LoopEnd 0] F6
                      ⟨mem.set dp c, dp, 6, inp, out⟩ = some s1 := hrun5
                  rw [runFuel_done _ _ _ (by norm_num)] at hrun6
                  have hrun7 := Option.some.inj hrun6
                  refine ⟨v, Nat.zero_le _, by rw [Nat.sub_zero]; exact hv, ?_⟩
                  rw [← hrun7, hz]
                  simp only [BFState.mk.injEq, and_true, Nat.sub_zero]
                  rw [List.set_set]
                · rw [bfStep_LoopEnd_pos _ ⟨mem.set dp c, dp, 5, inp, out⟩ 0
                    c (by rfl) hc2 hz] at hrun5
                  have hrun6 : runFuel
                      [.LoopStart 5, .DecVal 1, .DecPC 0, .DecVal 1, .IncPC 0, .LoopEnd 0] F6
                      ⟨mem.set dp c, dp, 1, inp, out⟩ = some s1 := hrun5
                  obtain ⟨t2, hled2, ht2, hs⟩ := ih F6 (by omega) _ dp c
                    inp out s1 hc2 (by omega) hcb hrun6
                  refine ⟨v, Nat.zero_le _, by rw [Nat.sub_zero]; exact hv, ?_⟩
                  rw [hs]
                  simp only [BFState.mk.injEq, and_true, Nat.sub_zero]
                  simp [List.set_set]
          · have hne : dp ≠ dp - d := by omega
            cases hg : mem.get? (dp - d) with
            | none =>
              have hnone : cell_sub_imm (mem.set dp (v - 1)) (dp - d) 1 = none := by
                apply cell_sub_imm_none
                rw [List.get?_set_ne _ _ hne]
                exact hg
              rw [bfStep_DecVal_none _ ⟨mem.set dp (v - 1), dp - d, 3, inp, out⟩ 1 (by rfl)
                hnone] at hrun3
              exact Option.noConfusion hrun3
            | some t =>
              refine ⟨t, hled, rfl, ?_⟩
              have hgt : (mem.set dp (v - 1)).get? (dp - d) = some t := by
                rw [List.get?_set_ne _ _ hne]
                exact hg
              obtain ⟨c, hc⟩ : ∃ c, wrapping_sub t 1 % 256 = c := ⟨_, rfl⟩
              have hcb : c < 256 := by
                rw [← hc]
                exact Nat.mod_lt _ (by norm_num)
              have hsub : cell_sub_imm (mem.set dp (v - 1)) (dp - d) 1 =
                  some ((mem.set dp (v - 1)).set (dp - d) c) := by
                rw [cell_sub_imm_some _ _ 1 t hgt, hc]
              rw [bfStep_DecVal_eq _ ⟨mem.set dp (v - 1), dp - d, 3, inp, out⟩ 1 _ (by rfl)
                hsub] at hrun3
              have hrun4 : runFuel
                  [.LoopStart 5, .DecVal 1, .DecPC d, .DecVal 1, .IncPC d, .LoopEnd 0] F4
                  ⟨(mem.set dp (v - 1)).set (dp - d) c, dp - d, 4, inp, out⟩ = some s1 := hrun3
              match F4 with
              | 0 =>
                rw [runFuel_zero_lt _ _ (by norm_num)] at hrun4
                exact Option.noConfusion hrun4
              | F5 + 1 =>
                rw [runFuel_succ _ _ _ (by norm_num)] at hrun4
                rw [bfStep_IncPC_eq _
                  ⟨(mem.set dp (v - 1)).set (dp - d) c, dp - d, 4, inp, out⟩ d (by rfl)] at hrun4
                have hrun5 : runFuel
                    [.LoopStart 5, .DecVal 1, .DecPC d, .DecVal 1, .IncPC d, .LoopEnd 0] F5
                    ⟨(mem.set dp (v - 1)).set (dp - d) c, dp - d + d, 5, inp, out⟩ =
                    some s1 := hrun4
                rw [Nat.sub_add_cancel hled] at hrun5
                have hcell5 : ((mem.set dp (v - 1)).set (dp - d) c).get? dp =
                    some (v - 1) := by
                  rw [List.get?_set_ne _ _ (by omega)]
                  exact List.get?_set_eq_of_lt _ hdp
                match F5 with
                | 0 =>
                  rw [runFuel_zero_lt _ _ (by norm_num)] at hrun5
                  exact Option.noConfusion hrun5
                | F6 + 1 =>
                  rw [runFuel_succ _ _ _ (by norm_num)] at hrun5
                  by_cases hz : v - 1 = 0
                  · rw [bfStep_LoopEnd_zero _
                      ⟨(mem.set dp (v - 1)).set (dp - d) c, dp, 5, inp, out⟩ 0
                      (by rfl) (by rw [hcell5, hz])] at hrun5
                    have hrun6 : runFuel
                        [.LoopStart 5, .DecVal 1, .DecPC d, .DecVal 1, .IncPC d, .LoopEnd 0] F6
                        ⟨(mem.set dp (v - 1)).set (dp - d) c, dp, 6, inp, out⟩ =
                        some s1 := hrun5
                    rw [runFuel_done _ _ _ (by norm_num)] at hrun6
                    have hrun7 := Option.some.inj hrun6
                    rw [← hrun7]
                    have hveq : v = 1 := by omega
                    rw [hveq, hc]
                    simp only [BFState.mk.injEq, and_true]
                    rw [show (1 : Nat) - 1 = 0 from rfl]
                    rw [List.set_comm _ _ _ (by omega)]
                  · rw [bfStep_LoopEnd_pos _
                      ⟨(mem.set dp (v - 1)).set (dp - d) c, dp, 5, inp, out⟩ 0
                      (v - 1) (by rfl) hcell5 hz] at hrun5
                    have hrun6 : runFuel
                        [.LoopStart 5, .DecVal 1, .DecPC d, .DecVal 1, .IncPC d, .LoopEnd 0] F6
                        ⟨(mem.set dp (v - 1)).set (dp - d) c, dp, 1, inp, out⟩ =
                        some s1 := hrun5
                    obtain ⟨t2, hled2, ht2, hs⟩ := ih F6 (by omega) _ dp (v - 1) inp out s1 hcell5
                      (by omega) (by omega) hrun6
                    have hx : ((mem.set dp (v - 1)).set (dp - d) c).get? (dp - d) =
                        some c := by
                      apply List.get?_set_eq_of_lt
                      rw [List.length_set]
                      simpa using (List.get?_eq_some.mp hgt).1
                    have ht2v : t2 = c := Option.some.inj (ht2.symm.trans hx)
                    rw [ht2v] at hs
                    rw [hs]
                    simp only [BFState.mk.injEq, and_true]
                    rw [List.set_set]
                    have harith : wrapping_sub c (v - 1) % 256 = wrapping_sub t v % 256 := by
                      rw [← hc, wrapping_sub_mod256, wrapping_sub_mod256, wrapping_sub_mod256]
                      omega
                    rw [harith]
                    rw [List.set_comm _ _ _ (by omega), List.set_set]
                    rw [List.set_comm _ _ _ (by omega)]
lemma bfStep_LoopEnd_none (instrs : List BFInstr) (s : BFState) (t : Nat)
    (hi : instrs.get? s.pc = some (.LoopEnd t))
    (hv : s.memory.get? s.data_ptr = none) :
    bfStep instrs s = none := by
  unfold bfStep
  rw [hi]
  show (match s.memory.get? s.data_ptr with
    | none => (none : Option BFState)
    | some v => if v ≠ 0 then some { s with pc := t } else some s) = none
  rw [hv]

lemma findZeroLeft_done (mem : List Nat) (k dp : Nat) (hv : mem.get? dp = some 0) :
    findZeroLeft mem k dp = some dp := by
  rw [findZeroLeft]
  split
  · next heq => rw [hv] at heq; exact Option.noConfusion heq
  · next v2 heq =>
    rw [hv] at heq
    injection heq with heq
    rw [if_pos heq.symm]

lemma findZeroLeft_step (mem : List Nat) (k dp v : Nat) (hv : mem.get? dp = some v)
    (hnz : v ≠ 0) (hk : k ≠ 0) (hle : k ≤ dp) :
    findZeroLeft mem k dp = findZeroLeft mem k (dp - k) := by
  conv_lhs => rw [findZeroLeft]
  split
  · next heq => rw [hv] at heq; exact Option.noConfusion heq
  · next v2 heq =>
    rw [hv] at heq
    injection heq with heq
    subst heq
    rw [if_neg hnz, dif_neg hk, dif_pos hle]

lemma findZeroRight_done (mem : List Nat) (k dp : Nat) (hv : mem.get? dp = some 0) :
    findZeroRight mem k dp = some dp := by
  rw [findZeroRight]
  split
  · next heq => rw [hv] at heq; exact Option.noConfusion heq
  · next v2 heq =>
    rw [hv] at heq
    injection heq with heq
    rw [if_pos heq.symm]

lemma findZeroRight_step (mem : List Nat) (k dp v : Nat) (hv : mem.get? dp = some v)
    (hnz : v ≠ 0) (hk : k ≠ 0) :
    findZeroRight mem k dp = findZeroRight mem k (dp + k) := by
  conv_lhs => rw [findZeroRight]
  split
  · next heq => rw [hv] at heq; exact Option.noConfusion heq
  · next v2 heq =>
    rw [hv] at heq
    injection heq with heq
    subst heq
    rw [if_neg hnz, dif_neg hk]

/-- Faithful execution of the compiled `[<]` loop body from the body's
first instruction matches the `FindZeroCellLeft` scan. -/
lemma findleft_body_run (k : Nat) : ∀ (F : Nat) (mem : List Nat) (dp v : Nat)
    (inp out : List Nat) (s1 : BFState),
    mem.get? dp = some v → v ≠ 0 →
    runFuel [.LoopStart 2, .DecPC k, .LoopEnd 0] F ⟨mem, dp, 1, inp, out⟩ = some s1 →
    ∃ dp2, findZeroLeft mem k dp = some dp2 ∧ s1 = ⟨mem, dp2, 3, inp, out⟩ := by
  intro F
  induction F using Nat.strong_induction_on with
  | _ F ih =>
    intro mem dp v inp out s1 hv hnz hrun
    match F with
    | 0 =>
      rw [runFuel_zero_lt _ _ (by norm_num)] at hrun
      exact Option.noConfusion hrun
    | F2 + 1 =>
      rw [runFuel_succ _ _ _ (by norm_num)] at hrun
      by_cases hle : k ≤ dp
      case neg =>
        rw [bfStep_DecPC_none _ ⟨mem, dp, 1, inp, out⟩ k (by rfl)
          (by show ¬ k ≤ dp; omega)] at hrun
        exact Option.noConfusion hrun
      case pos =>
      rw [bfStep_DecPC_eq _ ⟨mem, dp, 1, inp, out⟩ k (by rfl)
        (by show k ≤ dp; omega)] at hrun
      have hrun2 : runFuel [.LoopStart 2, .DecPC k, .LoopEnd 0] F2
          ⟨mem, dp - k, 2, inp, out⟩ = some s1 := hrun
      match F2 with
      | 0 =>
        rw [runFuel_zero_lt _ _ (by norm_num)] at hrun2
        exact Option.noConfusion hrun2
      | F3 + 1 =>
        rw [runFuel_succ _ _ _ (by norm_num)] at hrun2
        cases hg : mem.get? (dp - k) with
        | none =>
          rw [bfStep_LoopEnd_none _ ⟨mem, dp - k, 2, inp, out⟩ 0 (by rfl) hg] at hrun2
          exact Option.noConfusion hrun2
        | some w =>
          by_cases hw : w = 0
          · rw [bfStep_LoopEnd_zero _ ⟨mem, dp - k, 2, inp, out⟩ 0 (by rfl)
              (by rw [hg, hw])] at hrun2
            have hrun3 : runFuel [.LoopStart 2, .DecPC k, .LoopEnd 0] F3
                ⟨mem, dp - k, 3, inp, out⟩ = some s1 := hrun2
            rw [runFuel_done _ _ _ (by norm_num)] at hrun3
            have hs1 := Option.some.inj hrun3
            have hk : k ≠ 0 := by
              intro hk0
              subst hk0
              have hg2 : mem.get? dp = some w := hg
              rw [hv] at hg2
              injection hg2 with hg2
              exact hnz (hg2.trans hw)
            refine ⟨dp - k, ?_, hs1.symm⟩
            rw [findZeroLeft_step mem k dp v hv hnz hk hle]
            exact findZeroLeft_done mem k (dp - k) (by rw [hg, hw])
          · rw [bfStep_LoopEnd_pos _ ⟨mem, dp - k, 2, inp, out⟩ 0 w (by rfl) hg hw] at hrun2
            have hrun3 : runFuel [.LoopStart 2, .DecPC k, .LoopEnd 0] F3
                ⟨mem, dp - k, 1, inp, out⟩ = some s1 := hrun2
            obtain ⟨dp2, hfind, hs⟩ := ih F3 (by omega) mem (dp - k) w inp out s1 hg hw hrun3
            by_cases hk : k = 0
            · subst hk
              rw [Nat.sub_zero] at hfind
              exact ⟨dp2, hfind, hs⟩
            · refine ⟨dp2, ?_, hs⟩
              rw [findZeroLeft_step mem k dp v hv hnz hk hle]
              exact hfind

/-- Faithful execution of the compiled `[>]` loop body from the body's
first instruction matches the `FindZeroCellRight` scan. -/
lemma findright_body_run (k : Nat) : ∀ (F : Nat) (mem : List Nat) (dp v : Nat)
    (inp out : List Nat) (s1 : BFState),
    mem.get? dp = some v → v ≠ 0 →
    runFuel [.LoopStart 2, .IncPC k, .LoopEnd 0] F ⟨mem, dp, 1, inp, out⟩ = some s1 →
    ∃ dp2, findZeroRight mem k dp = some dp2 ∧ s1 = ⟨mem, dp2, 3, inp, out⟩ := by
  intro F
  induction F using Nat.strong_induction_on with
  | _ F ih =>
    intro mem dp v inp out s1 hv hnz hrun
    match F with
    | 0 =>
      rw [runFuel_zero_lt _ _ (by norm_num)] at hrun
      exact Option.noConfusion hrun
    | F2 + 1 =>
      rw [runFuel_succ _ _ _ (by norm_num)] at hrun
      rw [bfStep_IncPC_eq _ ⟨mem, dp, 1, inp, out⟩ k (by rfl)] at hrun
      have hrun2 : runFuel [.LoopStart 2, .IncPC k, .LoopEnd 0] F2
          ⟨mem, dp + k, 2, inp, out⟩ = some s1 := hrun
      match F2 with
      | 0 =>
        rw [runFuel_zero_lt _ _ (by norm_num)] at hrun2
        exact Option.noConfusion hrun2
      | F3 + 1 =>
        rw [runFuel_succ _ _ _ (by norm_num)] at hrun2
        cases hg : mem.get? (dp + k) with
        | none =>
          rw [bfStep_LoopEnd_none _ ⟨mem, dp + k, 2, inp, out⟩ 0 (by rfl) hg] at hrun2
          exact Option.noConfusion hrun2
        | some w =>
          by_cases hw : w = 0
          · rw [bfStep_LoopEnd_zero _ ⟨mem, dp + k, 2, inp, out⟩ 0 (by rfl)
              (by rw [hg, hw])] at hrun2
            have hrun3 : runFuel [.LoopStart 2, .IncPC k, .LoopEnd 0] F3
                ⟨mem, dp + k, 3, inp, out⟩ = some s1 := hrun2
            rw [runFuel_done _ _ _ (by norm_num)] at hrun3
            have hs1 := Option.some.inj hrun3
            have hk : k ≠ 0 := by
              intro hk0
              subst hk0
              have hg2 : mem.get? dp = some w := hg
              rw [hv] at hg2
              injection hg2 with hg2
              exact hnz (hg2.trans hw)
            refine ⟨dp + k, ?_, hs1.symm⟩
            rw [findZeroRight_step mem k dp v hv hnz hk]
            exact findZeroRight_done mem k (dp + k) (by rw [hg, hw])
          · rw [bfStep_LoopEnd_pos _ ⟨mem, dp + k, 2, inp, out⟩ 0 w (by rfl) hg hw] at hrun2
            have hrun3 : runFuel [.LoopStart 2, .IncPC k, .LoopEnd 0] F3
                ⟨mem, dp + k, 1, inp, out⟩ = some s1 := hrun2
            obtain ⟨dp2, hfind, hs⟩ := ih F3 (by omega) mem (dp + k) w inp out s1 hg hw hrun3
            by_cases hk : k = 0
            · subst hk
              rw [Nat.add_zero] at hfind
              exact ⟨dp2, hfind, hs⟩
            · refine ⟨dp2, ?_, hs⟩
              rw [findZeroRight_step mem k dp v hv hnz hk]
              exact hfind
lemma bfStep_LoopStart_none (instrs : List BFInstr) (s : BFState) (t : Nat)
    (hi : instrs.get? s.pc = some (.LoopStart t))
    (hv : s.memory.get? s.data_ptr = none) :
    bfStep instrs s = none := by
  unfold bfStep
  rw [hi]
  show (match s.memory.get? s.data_ptr with
    | none => (none : Option BFState)
    | some v => if v = 0 then some { s with pc := t } else some s) = none
  rw [hv]

lemma cell_add_cell_eq (mem : List Nat) (lhs rhs v : Nat) (hr : mem.get? rhs = some v) :
    cell_add_cell mem lhs rhs = cell_add_imm mem lhs v := by
  unfold cell_add_cell
  rw [hr]

lemma cell_sub_cell_eq (mem : List Nat) (lhs rhs v : Nat) (hr : mem.get? rhs = some v) :
    cell_sub_cell mem lhs rhs = cell_sub_imm mem lhs v := by
  unfold cell_sub_cell
  rw [hr]

lemma optimize_zero_inv (w ws : List BFInstr) (h : optimize_zero w = some ws) :
    ws = [.ZeroCurrentCell] ∧ (w = [.DecVal 1] ∨ w = [.ZeroCurrentCell]) := by
  unfold optimize_zero at h
  split at h
  case isFalse => exact Option.noConfusion h
  case isTrue hlen =>
  obtain ⟨a, ha⟩ := List.length_eq_one.mp hlen
  subst ha
  cases a with
  | DecVal n =>
    have h2 : (if n = 1 then some [BFInstr.ZeroCurrentCell] else none) = some ws := h
    split at h2
    · next hn =>
      subst hn
      exact ⟨(Option.some.inj h2).symm, Or.inl rfl⟩
    · exact Option.noConfusion h2
  | ZeroCurrentCell => exact ⟨(Option.some.inj h).symm, Or.inr rfl⟩
  | _ => exact Option.noConfusion h

lemma optimize_find_zero_inv (w ws : List BFInstr) (h : optimize_find_zero w = some ws) :
    ∃ k, (w = [.DecPC k] ∧ ws = [.FindZeroCellLeft k]) ∨
      (w = [.IncPC k] ∧ ws = [.FindZeroCellRight k]) := by
  unfold optimize_find_zero at h
  split at h
  case isFalse => exact Option.noConfusion h
  case isTrue hlen =>
  obtain ⟨a, ha⟩ := List.length_eq_one.mp hlen
  subst ha
  cases a with
  | DecPC k => exact ⟨k, Or.inl ⟨rfl, (Option.some.inj h).symm⟩⟩
  | IncPC k => exact ⟨k, Or.inr ⟨rfl, (Option.some.inj h).symm⟩⟩
  | _ => exact Option.noConfusion h

lemma optimize_move_data_inv (w ws : List BFInstr) (h : optimize_move_data w = some ws) :
    ∃ dd, (w = [.DecVal 1, .IncPC dd, .IncVal 1, .DecPC dd] ∧ ws = [.AddCellValueRight dd]) ∨
      (w = [.DecVal 1, .DecPC dd, .IncVal 1, .IncPC dd] ∧ ws = [.AddCellValueLeft dd]) ∨
      (w = [.DecVal 1, .IncPC dd, .DecVal 1, .DecPC dd] ∧ ws = [.SubCellValueRight dd]) ∨
      (w = [.DecVal 1, .DecPC dd, .DecVal 1, .IncPC dd] ∧ ws = [.SubCellValueLeft dd]) := by
  unfold optimize_move_data at h
  split at h
  case isFalse => exact Option.noConfusion h
  case isTrue hlen =>
  rcases w with _ | ⟨a, _ | ⟨b, _ | ⟨c, _ | ⟨e, _ | f⟩⟩⟩⟩ <;>
    simp only [List.length_nil, List.length_cons] at hlen <;>
    try omega
  cases a with
  | DecVal n1 =>
    cases b with
    | IncPC d1 =>
      cases c with
      | IncVal n2 =>
        cases e with
        | DecPC d2 =>
          have h2 : (if n1 = 1 ∧ n2 = 1 ∧ d1 = d2
              then some [BFInstr.AddCellValueRight d1] else none) = some ws := h
          split at h2
          · next hcond =>
            obtain ⟨he1, he2, he3⟩ := hcond
            subst he1
            subst he2
            subst he3
            exact ⟨d1, Or.inl ⟨rfl, (Option.some.inj h2).symm⟩⟩
          · exact Option.noConfusion h2
        | _ => exact Option.noConfusion h
      | DecVal n2 =>
        cases e with
        | DecPC d2 =>
          have h2 : (if n1 = 1 ∧ n2 = 1 ∧ d1 = d2
              then some [BFInstr.SubCellValueRight d1] else none) = some ws := h
          split at h2
          · next hcond =>
            obtain ⟨he1, he2, he3⟩ := hcond
            subst he1
            subst he2
            subst he3
            exact ⟨d1, Or.inr (Or.inr (Or.inl ⟨rfl, (Option.some.inj h2).symm⟩))⟩
          · exact Option.noConfusion h2
        | _ => exact Option.noConfusion h
      | _ => exact Option.noConfusion h
    | DecPC d1 =>
      cases c with
      | IncVal n2 =>
        cases e with
        | IncPC d2 =>
          have h2 : (if n1 = 1 ∧ n2 = 1 ∧ d1 = d2
              then some [BFInstr.AddCellValueLeft d1] else none) = some ws := h
          split at h2
          · next hcond =>
            obtain ⟨he1, he2, he3⟩ := hcond
            subst he1
            subst he2
            subst he3
            exact ⟨d1, Or.inr (Or.inl ⟨rfl, (Option.some.inj h2).symm⟩)⟩
          · exact Option.noConfusion h2
        | _ => exact Option.noConfusion h
      | DecVal n2 =>
        cases e with
        | IncPC d2 =>
          have h2 : (if n1 = 1 ∧ n2 = 1 ∧ d1 = d2
              then some [BFInstr.SubCellValueLeft d1] else none) = some ws := h
          split at h2
          · next hcond =>
            obtain ⟨he1, he2, he3⟩ := hcond
            subst he1
            subst he2
            subst he3
            exact ⟨d1, Or.inr (Or.inr (Or.inr ⟨rfl, (Option.some.inj h2).symm⟩))⟩
          · exact Option.noConfusion h2
        | _ => exact Option.noConfusion h
      | _ => exact Option.noConfusion h
    | _ => exact Option.noConfusion h
  | _ => exact Option.noConfusion h
lemma bfOptimize_inv (body w : List BFInstr) (h : bfOptimize body = some w) :
    optimize_zero body = some w ∨ optimize_move_data body = some w ∨
      optimize_find_zero body = some w := by
  rw [bfOptimize_eq] at h
  cases hz : optimize_zero body with
  | some ws =>
    rw [hz] at h
    exact Or.inl h
  | none =>
    rw [hz] at h
    cases hm : optimize_move_data body with
    | some ws =>
      rw [hm] at h
      exact Or.inr (Or.inl h)
    | none =>
      rw [hm] at h
      exact Or.inr (Or.inr h)

lemma runFuel_one (instrs : List BFInstr) (s s2 : BFState)
    (hpc : s.pc < instrs.length)
    (hstep : bfStep instrs s = some s2)
    (hdone : ¬ s2.pc + 1 < instrs.length) :
    runFuel instrs 1 s = some { s2 with pc := s2.pc + 1 } := by
  show runFuel instrs (0 + 1) s = some { s2 with pc := s2.pc + 1 }
  rw [runFuel_succ _ _ _ hpc, hstep]
  exact runFuel_done _ _ _ hdone

lemma loop_first_step (body : List BFInstr) (F : Nat) (mem : List Nat) (dp : Nat)
    (inp out : List Nat) (s1 : BFState)
    (hrun : runFuel (.LoopStart (body.length + 1) :: (body ++ [.LoopEnd 0])) F
      ⟨mem, dp, 0, inp, out⟩ = some s1) :
    ∃ v F2, mem.get? dp = some v ∧ F = F2 + 1 ∧
      ((v = 0 ∧ s1 = ⟨mem, dp, body.length + 2, inp, out⟩) ∨
       (v ≠ 0 ∧ runFuel (.LoopStart (body.length + 1) :: (body ++ [.LoopEnd 0])) F2
         ⟨mem, dp, 1, inp, out⟩ = some s1)) := by
  have hpc0 : (⟨mem, dp, 0, inp, out⟩ : BFState).pc <
      (BFInstr.LoopStart (body.length + 1) :: (body ++ [BFInstr.LoopEnd 0])).length := by
    show 0 < _
    exact Nat.succ_pos _
  match F with
  | 0 =>
    rw [runFuel_zero_lt _ _ hpc0] at hrun
    exact Option.noConfusion hrun
  | F2 + 1 =>
    rw [runFuel_succ _ _ _ hpc0] at hrun
    cases hv : mem.get? dp with
    | none =>
      rw [bfStep_LoopStart_none (BFInstr.LoopStart (body.length + 1) ::
        (body ++ [BFInstr.LoopEnd 0])) ⟨mem, dp, 0, inp, out⟩
        (body.length + 1) rfl hv] at hrun
      exact Option.noConfusion hrun
    | some v =>
      refine ⟨v, F2, rfl, rfl, ?_⟩
      by_cases hv0 : v = 0
      · subst hv0
        rw [bfStep_LoopStart_zero (BFInstr.LoopStart (body.length + 1) ::
          (body ++ [BFInstr.LoopEnd 0])) ⟨mem, dp, 0, inp, out⟩
          (body.length + 1) rfl hv] at hrun
        have hrun2 : runFuel (BFInstr.LoopStart (body.length + 1) ::
            (body ++ [BFInstr.LoopEnd 0])) F2
            ⟨mem, dp, body.length + 1 + 1, inp, out⟩ = some s1 := hrun
        rw [runFuel_done _ _ _ (by
          show ¬ (body.length + 1 + 1 <
            (BFInstr.LoopStart (body.length + 1) :: (body ++ [BFInstr.LoopEnd 0])).length)
          simp only [List.length_cons, List.length_append, List.length_nil]
          omega)] at hrun2
        exact Or.inl ⟨rfl, (Option.some.inj hrun2).symm⟩
      · rw [bfStep_LoopStart_pos (BFInstr.LoopStart (body.length + 1) ::
          (body ++ [BFInstr.LoopEnd 0])) ⟨mem, dp, 0, inp, out⟩
          (body.length + 1) v rfl hv hv0] at hrun
        exact Or.inr ⟨hv0, hrun⟩
/-- **C1** (refinement equivalence, spec P3): for every loop body accepted by
one of the three peephole rewriters (clear-cell, move-data, find-zero), every
byte-valued starting tape, and every faithful terminating execution of the
original bracketed loop, executing the single rewritten instruction once in
the interpreter produces exactly the tape and data-pointer state that the
loop's execution produced. -/
theorem optimize_loop_sound (body w : List BFInstr) (F : Nat) (mem : List Nat)
    (dp : Nat) (inp out : List Nat) (s1 : BFState)
    (hopt : bfOptimize body = some w)
    (hmem : ∀ x ∈ mem, x < 256)
    (hrun : runFuel (.LoopStart (body.length + 1) :: (body ++ [.LoopEnd 0])) F
      ⟨mem, dp, 0, inp, out⟩ = some s1) :
    ∃ s2, runFuel w 1 ⟨mem, dp, 0, inp, out⟩ = some s2 ∧
      s2.memory = s1.memory ∧ s2.data_ptr = s1.data_ptr := by
  rcases bfOptimize_inv body w hopt with hz | hm | hf
  · -- clear-cell rewriter
    obtain ⟨hws, hbody⟩ := optimize_zero_inv body w hz
    subst hws
    rcases hbody with hb | hb <;> subst hb <;>
      obtain ⟨v, F2, hv, hF, hcase⟩ := loop_first_step _ F mem dp inp out s1 hrun <;>
      have hdp : dp < mem.length := (List.get?_eq_some.mp hv).1 <;>
      have hv256 : v < 256 := hmem v (List.get?_mem hv)
    · rcases hcase with ⟨hv0, hs1⟩ | ⟨hvnz, hrun2⟩
      · subst hv0
        have hs1b : s1 = ⟨mem, dp, 3, inp, out⟩ := hs1
        refine ⟨⟨mem.set dp 0, dp, 1, inp, out⟩, ?_, ?_, ?_⟩
        · exact runFuel_one [BFInstr.ZeroCurrentCell] ⟨mem, dp, 0, inp, out⟩
            ⟨mem.set dp 0, dp, 0, inp, out⟩ (by show (0:Nat) < 1; norm_num)
            (bfStep_Zero_eq _ _ rfl hdp) (by show ¬ ((0:Nat) + 1 < 1); norm_num)
        · rw [hs1b]
          show mem.set dp 0 = mem
          exact set_get_same mem dp 0 hv
        · rw [hs1b]
      · have hrun3 : runFuel [.LoopStart 2, .DecVal 1, .LoopEnd 0] F2
            ⟨mem, dp, 1, inp, out⟩ = some s1 := hrun2
        have hs1b := clear_body_run F2 mem dp v inp out s1 hv
          (Nat.one_le_iff_ne_zero.mpr hvnz) hv256 hrun3
        refine ⟨⟨mem.set dp 0, dp, 1, inp, out⟩, ?_, ?_, ?_⟩
        · exact runFuel_one [BFInstr.ZeroCurrentCell] ⟨mem, dp, 0, inp, out⟩
            ⟨mem.set dp 0, dp, 0, inp, out⟩ (by show (0:Nat) < 1; norm_num)
            (bfStep_Zero_eq _ _ rfl hdp) (by show ¬ ((0:Nat) + 1 < 1); norm_num)
        · rw [hs1b]
        · rw [hs1b]
    · rcases hcase with ⟨hv0, hs1⟩ | ⟨hvnz, hrun2⟩
      · subst hv0
        have hs1b : s1 = ⟨mem, dp, 3, inp, out⟩ := hs1
        refine ⟨⟨mem.set dp 0, dp, 1, inp, out⟩, ?_, ?_, ?_⟩
        · exact runFuel_one [BFInstr.ZeroCurrentCell] ⟨mem, dp, 0, inp, out⟩
            ⟨mem.set dp 0, dp, 0, inp, out⟩ (by show (0:Nat) < 1; norm_num)
            (bfStep_Zero_eq _ _ rfl hdp) (by show ¬ ((0:Nat) + 1 < 1); norm_num)
        · rw [hs1b]
          show mem.set dp 0 = mem
          exact set_get_same mem dp 0 hv
        · rw [hs1b]
      · have hrun3 : runFuel [.LoopStart 2, .ZeroCurrentCell, .LoopEnd 0] F2
            ⟨mem, dp, 1, inp, out⟩ = some s1 := hrun2
        have hs1b := zerocell_body_run F2 mem dp v inp out s1 hv hrun3
        refine ⟨⟨mem.set dp 0, dp, 1, inp, out⟩, ?_, ?_, ?_⟩
        · exact runFuel_one [BFInstr.ZeroCurrentCell] ⟨mem, dp, 0, inp, out⟩
            ⟨mem.set dp 0, dp, 0, inp, out⟩ (by show (0:Nat) < 1; norm_num)
            (bfStep_Zero_eq _ _ rfl hdp) (by show ¬ ((0:Nat) + 1 < 1); norm_num)
        · rw [hs1b]
        · rw [hs1b]
  · -- move-data rewriter
    obtain ⟨d, hcase4⟩ := optimize_move_data_inv body w hm
    rcases hcase4 with ⟨hb, hws⟩ | ⟨hb, hws⟩ | ⟨hb, hws⟩ | ⟨hb, hws⟩ <;>
      subst hb <;> subst hws <;>
      obtain ⟨v, F2, hv, hF, hcase⟩ := loop_first_step _ F mem dp inp out s1 hrun <;>
      have hdp : dp < mem.length := (List.get?_eq_some.mp hv).1 <;>
      have hv256 : v < 256 := hmem v (List.get?_mem hv)
    · rcases hcase with ⟨hv0, hs1⟩ | ⟨hvnz, hrun2⟩
      · subst hv0
        have hs1b : s1 = ⟨mem, dp, 6, inp, out⟩ := hs1
        refine ⟨⟨mem, dp, 1, inp, out⟩, ?_, ?_, ?_⟩
        · exact runFuel_one [BFInstr.AddCellValueRight d] ⟨mem, dp, 0, inp, out⟩
            ⟨mem, dp, 0, inp, out⟩ (by show (0:Nat) < 1; norm_num)
            (bfStep_AddRight_zero _ _ d rfl hv) (by show ¬ ((0:Nat) + 1 < 1); norm_num)
        · rw [hs1b]
        · rw [hs1b]
      · have hrun3 : runFuel [.LoopStart 5, .DecVal 1, .IncPC d, .IncVal 1, .DecPC d,
            .LoopEnd 0] F2 ⟨mem, dp, 1, inp, out⟩ = some s1 := hrun2
        obtain ⟨t, ht, hs1b⟩ := addright_body_run d F2 mem dp v inp out s1 hv
          (Nat.one_le_iff_ne_zero.mpr hvnz) hv256 hrun3
        have hcell : cell_add_cell mem (dp + d) dp =
            some (mem.set (dp + d) (wrapping_add t v % 256)) := by
          rw [cell_add_cell_eq mem (dp + d) dp v hv]
          exact cell_add_imm_some mem (dp + d) v t ht
        refine ⟨⟨(mem.set (dp + d) (wrapping_add t v % 256)).set dp 0, dp, 1, inp, out⟩,
          ?_, ?_, ?_⟩
        · exact runFuel_one [BFInstr.AddCellValueRight d] ⟨mem, dp, 0, inp, out⟩
            ⟨(mem.set (dp + d) (wrapping_add t v % 256)).set dp 0, dp, 0, inp, out⟩
            (by show (0:Nat) < 1; norm_num)
            (bfStep_AddRight_pos _ _ d v _ rfl hv hvnz hcell)
            (by show ¬ ((0:Nat) + 1 < 1); norm_num)
        · rw [hs1b]
          show (mem.set (dp + d) (wrapping_add t v % 256)).set dp 0 =
            (mem.set (dp + d) ((t + v) % 256)).set dp 0
          rw [wrapping_add_mod256]
        · rw [hs1b]
    · rcases hcase with ⟨hv0, hs1⟩ | ⟨hvnz, hrun2⟩
      · subst hv0
        have hs1b : s1 = ⟨mem, dp, 6, inp, out⟩ := hs1
        refine ⟨⟨mem, dp, 1, inp, out⟩, ?_, ?_, ?_⟩
        · exact runFuel_one [BFInstr.AddCellValueLeft d] ⟨mem, dp, 0, inp, out⟩
            ⟨mem, dp, 0, inp, out⟩ (by show (0:Nat) < 1; norm_num)
            (bfStep_AddLeft_zero _ _ d rfl hv) (by show ¬ ((0:Nat) + 1 < 1); norm_num)
        · rw [hs1b]
        · rw [hs1b]
      · have hrun3 : runFuel [.LoopStart 5, .DecVal 1, .DecPC d, .IncVal 1, .IncPC d,
            .LoopEnd 0] F2 ⟨mem, dp, 1, inp, out⟩ = some s1 := hrun2
        obtain ⟨t, hdle, ht, hs1b⟩ := addleft_body_run d F2 mem dp v inp out s1 hv
          (Nat.one_le_iff_ne_zero.mpr hvnz) hv256 hrun3
        have hcell : cell_add_cell mem (dp - d) dp =
            some (mem.set (dp - d) (wrapping_add t v % 256)) := by
          rw [cell_add_cell_eq mem (dp - d) dp v hv]
          exact cell_add_imm_some mem (dp - d) v t ht
        refine ⟨⟨(mem.set (dp - d) (wrapping_add t v % 256)).set dp 0, dp, 1, inp, out⟩,
          ?_, ?_, ?_⟩
        · exact runFuel_one [BFInstr.AddCellValueLeft d] ⟨mem, dp, 0, inp, out⟩
            ⟨(mem.set (dp - d) (wrapping_add t v % 256)).set dp 0, dp, 0, inp, out⟩
            (by show (0:Nat) < 1; norm_num)
            (bfStep_AddLeft_pos _ _ d v _ rfl hv hvnz hdle hcell)
            (by show ¬ ((0:Nat) + 1 < 1); norm_num)
        · rw [hs1b]
          show (mem.set (dp - d) (wrapping_add t v % 256)).set dp 0 =
            (mem.set (dp - d) ((t + v) % 256)).set dp 0
          rw [wrapping_add_mod256]
        · rw [hs1b]
    · rcases hcase with ⟨hv0, hs1⟩ | ⟨hvnz, hrun2⟩
      · subst hv0
        have hs1b : s1 = ⟨mem, dp, 6, inp, out⟩ := hs1
        refine ⟨⟨mem, dp, 1, inp, out⟩, ?_, ?_, ?_⟩
        · exact runFuel_one [BFInstr.SubCellValueRight d] ⟨mem, dp, 0, inp, out⟩
            ⟨mem, dp, 0, inp, out⟩ (by show (0:Nat) < 1; norm_num)
            (bfStep_SubRight_zero _ _ d rfl hv) (by show ¬ ((0:Nat) + 1 < 1); norm_num)
        · rw [hs1b]
        · rw [hs1b]
      · have hrun3 : runFuel [.LoopStart 5, .DecVal 1, .IncPC d, .DecVal 1, .DecPC d,
            .LoopEnd 0] F2 ⟨mem, dp, 1, inp, out⟩ = some s1 := hrun2
        obtain ⟨t, ht, hs1b⟩ := subright_body_run d F2 mem dp v inp out s1 hv
          (Nat.one_le_iff_ne_zero.mpr hvnz) hv256 hrun3
        have hcell : cell_sub_cell mem (dp + d) dp =
            some (mem.set (dp + d) (wrapping_sub t v % 256)) := by
          rw [cell_sub_cell_eq mem (dp + d) dp v hv]
          exact cell_sub_imm_some mem (dp + d) v t ht
        refine ⟨⟨(mem.set (dp + d) (wrapping_sub t v % 256)).set dp 0, dp, 1, inp, out⟩,
          ?_, ?_, ?_⟩
        · exact runFuel_one [BFInstr.SubCellValueRight d] ⟨mem, dp, 0, inp, out⟩
            ⟨(mem.set (dp + d) (wrapping_sub t v % 256)).set dp 0, dp, 0, inp, out⟩
            (by show (0:Nat) < 1; norm_num)
            (bfStep_SubRight_pos _ _ d v _ rfl hv hvnz hcell)
            (by show ¬ ((0:Nat) + 1 < 1); norm_num)
        · rw [hs1b]
        · rw [hs1b]
    · rcases hcase with ⟨hv0, hs1⟩ | ⟨hvnz, hrun2⟩
      · subst hv0
        have hs1b : s1 = ⟨mem, dp, 6, inp, out⟩ := hs1
        refine ⟨⟨mem, dp, 1, inp, out⟩, ?_, ?_, ?_⟩
        · exact runFuel_one [BFInstr.SubCellValueLeft d] ⟨mem, dp, 0, inp, out⟩
            ⟨mem, dp, 0, inp, out⟩ (by show (0:Nat) < 1; norm_num)
            (bfStep_SubLeft_zero _ _ d rfl hv) (by show ¬ ((0:Nat) + 1 < 1); norm_num)
        · rw [hs1b]
        · rw [hs1b]
      · have hrun3 : runFuel [.LoopStart 5, .DecVal 1, .DecPC d, .DecVal 1, .IncPC d,
            .LoopEnd 0] F2 ⟨mem, dp, 1, inp, out⟩ = some s1 := hrun2
        obtain ⟨t, hdle, ht, hs1b⟩ := subleft_body_run d F2 mem dp v inp out s1 hv
          (Nat.one_le_iff_ne_zero.mpr hvnz) hv256 hrun3
        have hcell : cell_sub_cell mem (dp - d) dp =
            some (mem.set (dp - d) (wrapping_sub t v % 256)) := by
          rw [cell_sub_cell_eq mem (dp - d) dp v hv]
          exact cell_sub_imm_some mem (dp - d) v t ht
        refine ⟨⟨(mem.set (dp - d) (wrapping_sub t v % 256)).set dp 0, dp, 1, inp, out⟩,
          ?_, ?_, ?_⟩
        · exact runFuel_one [BFInstr.SubCellValueLeft d] ⟨mem, dp, 0, inp, out⟩
            ⟨(mem.set (dp - d) (wrapping_sub t v % 256)).set dp 0, dp, 0, inp, out⟩
            (by show (0:Nat) < 1; norm_num)
            (bfStep_SubLeft_pos _ _ d v _ rfl hv hvnz hdle hcell)
            (by show ¬ ((0:Nat) + 1 < 1); norm_num)
        · rw [hs1b]
        · rw [hs1b]
  · -- find-zero rewriter
    obtain ⟨k, hcase2⟩ := optimize_find_zero_inv body w hf
    rcases hcase2 with ⟨hb, hws⟩ | ⟨hb, hws⟩ <;>
      subst hb <;> subst hws <;>
      obtain ⟨v, F2, hv, hF, hcase⟩ := loop_first_step _ F mem dp inp out s1 hrun
    · rcases hcase with ⟨hv0, hs1⟩ | ⟨hvnz, hrun2⟩
      · subst hv0
        have hs1b : s1 = ⟨mem, dp, 3, inp, out⟩ := hs1
        refine ⟨⟨mem, dp, 1, inp, out⟩, ?_, ?_, ?_⟩
        · exact runFuel_one [BFInstr.FindZeroCellLeft k] ⟨mem, dp, 0, inp, out⟩
            ⟨mem, dp, 0, inp, out⟩ (by show (0:Nat) < 1; norm_num)
            (bfStep_FindLeft_eq _ _ k dp rfl (findZeroLeft_done mem k dp hv))
            (by show ¬ ((0:Nat) + 1 < 1); norm_num)
        · rw [hs1b]
        · rw [hs1b]
      · have hrun3 : runFuel [.LoopStart 2, .DecPC k, .LoopEnd 0] F2
            ⟨mem, dp, 1, inp, out⟩ = some s1 := hrun2
        obtain ⟨dp2, hfind, hs1b⟩ := findleft_body_run k F2 mem dp v inp out s1 hv hvnz hrun3
        refine ⟨⟨mem, dp2, 1, inp, out⟩, ?_, ?_, ?_⟩
        · exact runFuel_one [BFInstr.FindZeroCellLeft k] ⟨mem, dp, 0, inp, out⟩
            ⟨mem, dp2, 0, inp, out⟩ (by show (0:Nat) < 1; norm_num)
            (bfStep_FindLeft_eq _ _ k dp2 rfl hfind)
            (by show ¬ ((0:Nat) + 1 < 1); norm_num)
        · rw [hs1b]
        · rw [hs1b]
    · rcases hcase with ⟨hv0, hs1⟩ | ⟨hvnz, hrun2⟩
      · subst hv0
        have hs1b : s1 = ⟨mem, dp, 3, inp, out⟩ := hs1
        refine ⟨⟨mem, dp, 1, inp, out⟩, ?_, ?_, ?_⟩
        · exact runFuel_one [BFInstr.FindZeroCellRight k] ⟨mem, dp, 0, inp, out⟩
            ⟨mem, dp, 0, inp, out⟩ (by show (0:Nat) < 1; norm_num)
            (bfStep_FindRight_eq _ _ k dp rfl (findZeroRight_done mem k dp hv))
            (by show ¬ ((0:Nat) + 1 < 1); norm_num)
        · rw [hs1b]
        · rw [hs1b]
      · have hrun3 : runFuel [.LoopStart 2, .IncPC k, .LoopEnd 0] F2
            ⟨mem, dp, 1, inp, out⟩ = some s1 := hrun2
        obtain ⟨dp2, hfind, hs1b⟩ := findright_body_run k F2 mem dp v inp out s1 hv hvnz hrun3
        refine ⟨⟨mem, dp2, 1, inp, out⟩, ?_, ?_, ?_⟩
        · exact runFuel_one [BFInstr.FindZeroCellRight k] ⟨mem, dp, 0, inp, out⟩
            ⟨mem, dp2, 0, inp, out⟩ (by show (0:Nat) < 1; norm_num)
            (bfStep_FindRight_eq _ _ k dp2 rfl hfind)
            (by show ¬ ((0:Nat) + 1 < 1); norm_num)
        · rw [hs1b]
        · rw [hs1b]

/-- Witness for C1: the clear loop `[-]` on tape `[2]` runs to the final state
`⟨[0], 0, 3⟩`, and the rewritten `ZeroCurrentCell` reproduces its tape and DP. -/
theorem optimize_loop_sound_witness :
    bfOptimize [BFInstr.DecVal 1] = some [BFInstr.ZeroCurrentCell] ∧
    (∀ x ∈ [2], x < 256) ∧
    runFuel (BFInstr.LoopStart ([BFInstr.DecVal 1].length + 1) ::
      ([BFInstr.DecVal 1] ++ [BFInstr.LoopEnd 0])) 20 ⟨[2], 0, 0, [], []⟩ =
      some ⟨[0], 0, 3, [], []⟩ ∧
    (∃ s2, runFuel [BFInstr.ZeroCurrentCell] 1 ⟨[2], 0, 0, [], []⟩ = some s2 ∧
      s2.memory = BFState.memory ⟨[0], 0, 3, [], []⟩ ∧
      s2.data_ptr = BFState.data_ptr ⟨[0], 0, 3, [], []⟩) :=
  ⟨rfl, by decide, rfl,
    optimize_loop_sound [BFInstr.DecVal 1] [BFInstr.ZeroCurrentCell] 20 [2] 0 [] []
      ⟨[0], 0, 3, [], []⟩ rfl (by decide) rfl⟩
end BF
